import Mathlib

/-!
# Verification of the `reqtruct` request-decoding engine

Shallow embedding of the Go sources (`cache.go`, the decoder file, the file-shape
helpers and `errors.go`) of the `reqtruct` package, together with proofs settling
the frozen claims about the path tokenizer, the type-metadata cache, the address
resolver, the source merger and the value writer.

Modelling conventions:
* Go `reflect.Type` values are modelled by the inductive `GoTy`; struct field
  descriptors (name, tag list, anonymous flag, type) by `GoField`.
* Go `reflect.Value` trees are modelled by `GoVal`; pointers carry their pointee
  inline (the decoded structures are trees, so there is no aliasing).
* Machine integers are modelled by `Int`/`Nat`; the decoded integer values in the
  claims are tiny, so overflow of Go's `int`/`int64` never occurs on them.
* Functions of the source that recurse through `reflect` types (metadata
  construction, zero values, JSON flattening) take an explicit fuel argument:
  the Go code recurses on the call stack (and diverges on self-referential
  types, which the finite trees of `GoTy` cannot even express); every theorem
  below either quantifies over the fuel or supplies one that is large enough
  for the concrete type involved, so the fuel never truncates a computation.
* Go runtime panics (out-of-range indexing) are modelled by `Option`: a result
  of `none` marks an execution on which the Go program panics.
* Strings are treated as their character lists.  The Go code mixes byte
  indexing (`path[i-1]`) with rune iteration; all separators and keys in the
  claims are ASCII, where the two coincide, and the model uses the
  character-level reading.
-/

namespace Reqtruct

/-! ## Locations (`cache.go`, the `Location*` iota block) -/

def locationNone : Nat := 0
def LocationPath : Nat := 1
def LocationQuery : Nat := 2
def LocationHeader : Nat := 3
def LocationForm : Nat := 4
def LocationFile : Nat := 5
def LocationJSON : Nat := 6

/-- `locationTags` / `locationValues` (`cache.go`): the tag-name ↔ location maps.
The model fixes the tag-name enumeration order used by `fieldAlias` (Go ranges
over the `locationTags` map in unspecified order; every field in the claims
carries at most one location tag, for which all orders agree). -/
def locationTagList : List (Nat × String) :=
  [(LocationPath, "path"), (LocationQuery, "query"), (LocationHeader, "header"),
   (LocationForm, "form"), (LocationFile, "file"), (LocationJSON, "json")]

/-- `nameToLocation` (`cache.go`): map lookup, `0` (= `locationNone`) when absent. -/
def nameToLocation (name : String) : Nat :=
  match locationTagList.find? (fun p => p.2 == name) with
  | some p => p.1
  | none => locationNone

/-- `containsInt` (`cache.go`). -/
def containsInt (l : List Nat) (i : Nat) : Bool := l.contains i

/-! ### Structurally-recursive string primitives

The model re-implements the handful of Go string operations it needs over
character lists (the library versions are compiled with well-founded
recursion and do not evaluate inside the kernel). -/

def chSplitAux (sep : Char) : List Char → List Char → List String
  | [], cur => [String.mk cur]
  | c :: rest, cur =>
    if c = sep then String.mk cur :: chSplitAux sep rest []
    else chSplitAux sep rest (cur ++ [c])

/-- `strings.Split(s, string(sep))` for a one-character separator. -/
def chSplit (sep : Char) (s : String) : List String := chSplitAux sep s.toList []

/-- `strings.Contains(s, string(sep))` for a one-character separator. -/
def chContains (sep : Char) (s : String) : Bool := s.toList.contains sep

/-- ASCII lower-casing (the aliases of the claims are ASCII, where Go's
simple case folding agrees with it). -/
def asciiLower (s : String) : String := String.mk (s.toList.map Char.toLower)

/-- `strings.TrimSpace` over the space set of `unicode.IsSpace` (Latin-1
part; declared later as `goIsSpace`). -/
def trimBy (p : Char → Bool) (s : String) : String :=
  String.mk (((s.toList.dropWhile p).reverse.dropWhile p).reverse)

/-- `strings.HasPrefix`. -/
def goHasPrefix (s pre : String) : Bool := pre.toList.isPrefixOf s.toList

/-! ## Go types and struct fields -/

mutual

/-- Model of the Go `reflect.Type`s the decoder manipulates: integers, strings,
pointers, slices, structs, `mime/multipart.File` and `mime/multipart.FileHeader`. -/
inductive GoTy where
  | int : GoTy
  | str : GoTy
  | ptr : GoTy → GoTy
  | slice : GoTy → GoTy
  | strukt : String → List GoField → GoTy
  | file : GoTy

/-- Model of a Go `reflect.StructField`: name, struct-tag key/value pairs,
anonymous (embedded) flag and type. -/
inductive GoField where
  | mk : String → List (String × String) → Bool → GoTy → GoField

end

def GoField.name : GoField → String
  | .mk n _ _ _ => n

def GoField.tags : GoField → List (String × String)
  | .mk _ t _ _ => t

def GoField.anonymous : GoField → Bool
  | .mk _ _ a _ => a

def GoField.ty : GoField → GoTy
  | .mk _ _ _ t => t

/-- Structural key identifying a type, standing in for `reflect.Type` identity
(used for the converter registry, which Go keys by `reflect.Type`). -/
def tyKey : GoTy → String
  | .int => "int"
  | .str => "string"
  | .ptr t => "*" ++ tyKey t
  | .slice t => "[]" ++ tyKey t
  | .strukt n _ => n
  | .file => "multipart.File"

/-- The name by which the file-shape helpers recognise `mime/multipart.FileHeader`
(standing in for its `PkgPath() + "." + Name()`). -/
def fileHeaderName : String := "multipart.FileHeader"

/-- `mime/multipart.FileHeader` is a struct type; its exported convertible
fields (`Filename string`, `Size int64`) are modelled so that the transitive
`containsLocation` recursion of `cache.go` sees the same metadata Go builds
for it.  The `Header` field (a map type, which `createField` drops as
unsupported) is omitted. -/
def fileHeaderTy : GoTy :=
  .strukt fileHeaderName [.mk "Filename" [] false .str, .mk "Size" [] false .int]

/-- `indirectType` (`cache.go`). -/
def indirectType : GoTy → GoTy
  | .ptr t => t
  | t => t

/-- `underlyingElem` (`cache.go`); `GoTy` has no array kind (no claim uses Go
arrays), so only the pointer and slice unwrapping steps apply. -/
def underlyingElem (t : GoTy) : GoTy :=
  let t := indirectType t
  match t with
  | .slice e => indirectType e
  | _ => t

/-- `isFileHeader` (file-shape helpers file): a struct named
`mime/multipart.FileHeader`. -/
def isFileHeader : GoTy → Bool
  | .strukt n _ => n == fileHeaderName
  | _ => false

/-- `isFileHeadersPtrs` (file-shape helpers file). -/
def isFileHeadersPtrs : GoTy → Bool
  | .slice (.ptr t) => isFileHeader t
  | _ => false

/-- `isFileHeaderPtr` (file-shape helpers file). -/
def isFileHeaderPtr : GoTy → Bool
  | .ptr t => isFileHeader t
  | _ => false

/-- `isFileHeaders` (file-shape helpers file). -/
def isFileHeaders : GoTy → Bool
  | .slice t => isFileHeader t
  | _ => false

/-- `isFiles` (file-shape helpers file). -/
def isFiles : GoTy → Bool
  | .slice .file => true
  | _ => false

/-- `isFile` (file-shape helpers file). -/
def isFile : GoTy → Bool
  | .file => true
  | _ => false

/-- `isFileType` (`cache.go`). -/
def isFileType (t : GoTy) : Bool := isFile t || isFileHeader t

/-- Fields of a struct type (`reflect.Type.NumField`/`Field`). -/
def structFields : GoTy → List GoField
  | .strukt _ fs => fs
  | _ => []

def isStruktTy : GoTy → Bool
  | .strukt _ _ => true
  | _ => false

/-- `hasFiles` (`cache.go`), with fuel for the recursion through nested struct
types (the Go call stack). -/
def hasFiles : Nat → GoTy → Bool
  | 0, _ => false
  | fuel+1, t =>
    let t := underlyingElem t
    match t with
    | .strukt _ fs =>
      fs.any (fun f =>
        let e := underlyingElem f.ty
        isFileType e || (isStruktTy e && hasFiles fuel e))
    | _ => false

/-! ## Errors (`errors.go`) -/

/-- Per-key error values: `invalidPath` (the internal sentinel), `LocationError`,
`UnknownKeyError`, `ConversionError` (the `Type` field rendered via `tyKey`,
the low-level `Err` as an optional message), the `fmt.Errorf` "converter not
found" error, and errors returned raw from `multipart.FileHeader.Open`. -/
inductive DErr where
  | invalidPath : DErr
  | locationErr : String → List Nat → Nat → DErr
  | unknownKey : String → DErr
  | conversionErr : String → String → Int → Option String → DErr
  | converterNotFound : String → DErr
  | openErr : String → DErr
deriving DecidableEq, Repr

/-- Errors `Decoder.Decode` returns directly (not per key): the aggregated
`MultiError` map, `ParsingError` and `ContentTypeError`. -/
inductive TopErr where
  | multi : List (String × DErr) → TopErr
  | parsingErr : String → TopErr
  | contentTypeErr : String → String → TopErr
deriving DecidableEq, Repr

/-! ## The cache configuration (`cache.go`, `newCache` and the `cache` struct) -/

/-- Model of a `*multipart.FileHeader`: a filename and the outcome of its
`Open` method (an opaque stream id, or an error message).  The spec treats
file handles as opaque collaborator objects exposing exactly this. -/
instance : DecidableEq (Except String Nat) := fun a b =>
  match a, b with
  | .ok x, .ok y => if h : x = y then .isTrue (by rw [h]) else .isFalse (by simp [h])
  | .error x, .error y => if h : x = y then .isTrue (by rw [h]) else .isFalse (by simp [h])
  | .ok _, .error _ => .isFalse (by simp)
  | .error _, .ok _ => .isFalse (by simp)

structure FH where
  filename : String
  openResult : Except String Nat
deriving DecidableEq, Repr

/-- Model of Go `reflect.Value` trees.  A pointer carries its pointee inline
(`none` = nil pointer); an opened `multipart.File` is an opaque stream id
(`none` = nil interface); `fileHeaderV` wraps a file-header record. -/
inductive GoVal where
  | int : Int → GoVal
  | str : String → GoVal
  | strukt : List (String × GoVal) → GoVal
  | slice : List GoVal → GoVal
  | ptr : Option GoVal → GoVal
  | fileV : Option Nat → GoVal
  | fileHeaderV : FH → GoVal
deriving Repr

/-- A registered or builtin converter: `func(string) reflect.Value`, with the
invalid `reflect.Value` modelled as `none`.  Converters in the model return a
value already of the target type, so the `reflect.Value.Convert` step of the
source is the identity on them. -/
def Converter : Type := String → Option GoVal

/-- The Go rune `0`, which `Separator` uses to mean "not configured". -/
def nullChar : Char := Char.ofNat 0

/-- The configuration part of the `cache` struct (`cache.go`).  The memo map
`m` is not modelled: metadata construction is a deterministic pure function of
the type (spec 4.2), so `cache.get` is modelled as re-running `create`.
`nameFunc` is `none` by default (`getAlias` then returns the field name). -/
structure Cache where
  regconv : List (String × Converter)
  sepLeft : Char := nullChar
  sepRight : Char := nullChar
  sep : Char := '.'
  defaultLocation : Nat := LocationJSON
  nameFunc : Option (String → List Nat → String) := none

/-- `newCache` (`cache.go`). -/
def newCache : Cache :=
  { regconv := [], sep := '.', defaultLocation := LocationJSON }

/-- `cache.converter` (`cache.go`): the converter registered for a type. -/
def Cache.converter (c : Cache) (t : GoTy) : Option Converter :=
  (c.regconv.find? (fun p => p.1 == tyKey t)).map (·.2)

/-- `cache.getAlias` (`cache.go`). -/
def Cache.getAlias (c : Cache) (name : String) (locations : List Nat) : String :=
  match c.nameFunc with
  | some f => f name locations
  | none => name

/-! ## The path tokenizer (`cache.splitPath`, `cache.go`) -/

/-- `unicode.IsSpace` restricted to Latin-1 (all keys in the claims are ASCII). -/
def goIsSpace (c : Char) : Bool :=
  c = ' ' || c = '\t' || c = '\n' || c = Char.ofNat 11 || c = Char.ofNat 12 ||
  c = '\r' || c = Char.ofNat 0x85 || c = Char.ofNat 0xA0

/-- Loop state of `cache.splitPath`'s bracketed-grammar scan. -/
structure SplitSt where
  parts : List String
  runes : List Char
  isFirstLevel : Bool
  opened : Bool

/-- The per-rune loop of `cache.splitPath` (`cache.go` lines 56–107), in the
bracketed grammar.  `prev` is the previous character (`path[i-1]`; `none` at
`i = 0`), `rest` the characters after the current one, so `rest = []` says
`i = len(path)-1`, `rest.length = 1` says `i = len(path)-2`, and `rest.head?`
is `path[i+1]`.  A `none` result is the `invalidPath` error. -/
def splitLoop (c : Cache) : List Char → Option Char → SplitSt → Option SplitSt
  | [], _, st => some st
  | r :: rest, prev, st =>
    if goIsSpace r then none
    else if r = c.sepLeft || r = c.sepRight || r = c.sep then
      if prev = none || prev = some r then none
      else if rest = [] && r ≠ c.sepRight then none
      else if r = c.sepLeft then
        if !st.isFirstLevel && c.sep ≠ nullChar && prev ≠ some c.sep then none
        else if st.runes = [] &&
            (rest.length ≠ 1 || (rest.length = 1 && rest.head? ≠ some c.sepRight)) then none
        else if st.opened then none
        else splitLoop c rest (some r)
          { parts := st.parts ++ [String.mk st.runes], runes := [],
            isFirstLevel := false, opened := true }
      else if r = c.sepRight then
        if !st.opened then none
        else
          let st :=
            if rest = [] && st.runes ≠ [] then
              { st with parts := st.parts ++ [String.mk st.runes], runes := [] }
            else st
          splitLoop c rest (some r) { st with opened := false }
      else
        if !st.opened && !st.isFirstLevel && prev ≠ some c.sepRight then none
        else if !st.opened && rest.head? ≠ some c.sepLeft then none
        else if st.opened then splitLoop c rest (some r) { st with runes := st.runes ++ [r] }
        else splitLoop c rest (some r) st
    else
      if !st.isFirstLevel && !st.opened then none
      else splitLoop c rest (some r) { st with runes := st.runes ++ [r] }

/-- `strings.Split` (used by the plain grammar). -/
def goSplit (s : String) (sep : Char) : List String := chSplit sep s

/-- `cache.splitPath` (`cache.go`).  `.error .invalidPath` is the error return. -/
def Cache.splitPath (c : Cache) (path : String) : Except DErr (List String) :=
  if c.sepLeft ≠ nullChar && c.sepRight ≠ nullChar then
    match splitLoop c path.toList none ⟨[], [], true, false⟩ with
    | none => .error .invalidPath
    | some st =>
      if st.opened then .error .invalidPath
      else if st.parts = [] then .ok [path]
      else .ok st.parts
  else .ok (goSplit path c.sep)

/-! ## Builtin converters -/

def digitsVal (cs : List Char) : Nat :=
  cs.foldl (fun a c => a * 10 + (c.toNat - '0'.toNat)) 0

/-- `strconv.ParseInt(s, 10, 0)`: optional sign, base-10 digits, whole-token
parse.  The 64-bit range check is omitted: every integer in the claims is tiny. -/
def goParseInt (s : String) : Option Int :=
  match s.toList with
  | [] => none
  | c :: cs =>
    let p : Bool × List Char :=
      if c = '-' then (true, cs) else if c = '+' then (false, cs) else (false, c :: cs)
    if p.2 = [] || !p.2.all Char.isDigit then none
    else some (if p.1 then -(digitsVal p.2 : Int) else (digitsVal p.2 : Int))

/-- Modelled from the spec: the `builtinConverters` table (its source file is
not among the given sources).  Spec 4.5/7: builtin converters cover the
ordinary integer widths, floats, booleans and text, each a base-10
whole-token parse; the model provides the `int` and `string` kinds, the only
kinds the claims' target types use.  Indexed, like the source table, by the
type's kind, so any other kind has no builtin converter. -/
def builtinConverters (t : GoTy) : Option Converter :=
  match t with
  | .int => some (fun s => (goParseInt s).map GoVal.int)
  | .str => some (fun s => some (.str s))
  | _ => none

/-! ## Text-unmarshaler probing (`isTextUnmarshaler`, decoder file) -/

/-- The `unmarshaler` struct (decoder file). -/
structure Unmarshaler where
  isValid : Bool := false
  isPtr : Bool := false
  isSliceElement : Bool := false
  isSliceElementPtr : Bool := false
deriving DecidableEq, Repr

/-- `isTextUnmarshaler` (decoder file).  No type expressible in `GoTy`
implements `encoding.TextUnmarshaler` (none of the claims' target types do),
so every interface assertion of the source comes out false and only the
slice-shape flags are recorded, exactly following the source's control flow. -/
def isTextUnmarshalerTy (t0 : GoTy) : Unmarshaler :=
  match indirectType t0 with
  | .slice e =>
    match e with
    | .ptr _ => { isSliceElement := true, isSliceElementPtr := true }
    | _ => { isSliceElement := true }
  | _ => {}

/-! ## Field and struct metadata (`fieldInfo` / `structInfo`, `cache.go`) -/

/-- `fieldInfo` (`cache.go`). -/
structure FieldInfo where
  typ : GoTy
  locations : List Nat
  locationsDefined : Bool
  name : String
  «alias» : String
  canonicalAlias : String
  unmarshalerInfo : Unmarshaler
  isSliceOfStructs : Bool
  isAnonymous : Bool

/-- `structInfo` (`cache.go`). -/
structure StructInfo where
  containsPath : Bool := false
  containsQuery : Bool := false
  containsHeader : Bool := false
  containsForm : Bool := false
  containsFile : Bool := false
  containsJSON : Bool := false
  fieldsJSON : List String := []
  fields : List FieldInfo := []

/-- `strings.EqualFold`, on the ASCII aliases of the claims (simple case
folding coincides with `toLower` there). -/
def goEqualFold (a b : String) : Bool := asciiLower a == asciiLower b

/-- `structInfo.get` (`cache.go`): first field whose alias matches
case-insensitively. -/
def StructInfo.get (i : StructInfo) (al : String) : Option FieldInfo :=
  i.fields.find? (fun f => goEqualFold f.«alias» al)

/-- `containsAlias` (`cache.go`). -/
def containsAlias (infos : List StructInfo) (al : String) : Bool :=
  infos.any (fun info => (info.get al).isSome)

/-- `getWithLocation` (`cache.go`); the variadic parameter is a list. -/
def getWithLocation (fields : List FieldInfo) (locations : List Nat) : List FieldInfo :=
  fields.filter (fun f => locations.any (fun l => containsInt f.locations l))

/-- `fieldsAliases` (`cache.go`). -/
def fieldsAliases (fields : List FieldInfo) : List String :=
  (fields.filter (fun f => f.canonicalAlias == f.«alias»)).map (·.«alias»)

/-! ## Field derivation (`cache.fieldAlias` / `cache.createField`, `cache.go`) -/

def fromTag : String := "from"
def nameTag : String := "name"

/-- `reflect.StructTag.Get`. -/
def tagGet (tags : List (String × String)) (k : String) : String :=
  match tags.find? (fun p => p.1 == k) with
  | some p => p.2
  | none => ""

/-- `parseTag` (`cache.go`): the part before the first comma. -/
def parseTag (tag : String) : String :=
  match chSplit ',' tag with
  | [] => ""
  | s :: _ => s

/-- `clean` (`cache.go`): trim whitespace around each entry. -/
def clean (s : List String) : List String := s.map (trimBy goIsSpace)

/-- The per-location-tag scan opening `cache.fieldAlias` (`cache.go` lines
493–503).  Result: `(alias, locations, jsonAllowed)`; `.error ()` is the
`return "-", nil, false` case.  The model fixes the enumeration order of
`locationTags` (a Go map iterated in unspecified order; each field in the
claims carries at most one location tag, making all orders agree). -/
def locTagScan (tags : List (String × String)) :
    List (Nat × String) → Bool → Except Unit (String × List Nat × Bool)
  | [], jsonAllowed => .ok ("", [], jsonAllowed)
  | (loc, tagName) :: rest, jsonAllowed =>
    let tag := parseTag (tagGet tags tagName)
    if tag ≠ "" && tag ≠ "-" then .ok (tag, [loc], jsonAllowed)
    else if tag = "-" && tagName = "json" then locTagScan tags rest false
    else if tag = "-" then .error ()
    else locTagScan tags rest jsonAllowed

/-- `cache.fieldAlias` (`cache.go`): alias, allowed locations, and whether the
location list was explicitly declared (as opposed to inherited from the
configured default). -/
def Cache.fieldAlias (c : Cache) (field : GoField)
    (parentLocations : List Nat) (parentContainsFiles : Bool) :
    String × List Nat × Bool :=
  match locTagScan field.tags locationTagList true with
  | .error () => ("-", [], false)
  | .ok (alias0, locations0, jsonAllowed) =>
    let finish := fun (al : String) (locations : List Nat) (locationsDefined : Bool) =>
      (if field.anonymous then "" else al, locations, locationsDefined)
    if alias0 = "" then
      let tag := tagGet field.tags nameTag
      let lTag := tagGet field.tags fromTag
      if tag ≠ "-" && lTag ≠ "" then
        let locs := clean (chSplit ',' lTag)
        -- `len(locs) == 0` never holds (`strings.Split` yields ≥ 1 entry);
        -- the branch is kept for fidelity to the source.
        let locations1 :=
          if locs = [] && parentLocations ≠ [] then parentLocations
          else if locs ≠ [] then
            locs.foldl (fun acc loc =>
              let l := nameToLocation loc
              if l ≠ locationNone then acc ++ [l] else acc) []
          else []
        let locations2 :=
          if locations1 = [] && parentLocations = [] then [LocationJSON]
          else if locations1 = [] then parentLocations
          else locations1
        let tag2 := if tag = "" then c.getAlias field.name locations2 else tag
        finish tag2 locations2 true
      else if tag ≠ "-" && lTag = "" then
        if parentLocations ≠ [] then
          finish (if tag = "" then c.getAlias field.name parentLocations else tag)
            parentLocations true
        else if isFileType (underlyingElem field.ty) then
          finish (if tag = "" then c.getAlias field.name [LocationFile] else tag)
            [LocationFile] true
        else if parentContainsFiles then
          finish (if tag = "" then c.getAlias field.name [LocationForm] else tag)
            [LocationForm] true
        else if c.defaultLocation ≠ locationNone then
          if c.defaultLocation = LocationJSON && !jsonAllowed then ("-", [], false)
          else
            finish (if tag = "" then c.getAlias field.name [c.defaultLocation] else tag)
              [c.defaultLocation] false
        else if jsonAllowed then
          finish (if tag = "" then c.getAlias field.name [LocationJSON] else tag)
            [LocationJSON] false
        else
          finish (if tag = "" then c.getAlias field.name [] else tag) [] true
      else ("-", [], false)
    else finish alias0 locations0 true

/-- `cache.createField` (`cache.go`).  The eager caching of nested struct
metadata (a side effect on the memo map) is dropped: the pure model rebuilds
nested metadata on demand.  `GoTy` has no array kind, so the array-unwrapping
step of the source is vacuous. -/
def Cache.createField (c : Cache) (field : GoField) (parentAlias : String)
    (parentLocations : List Nat) (parentContainsFiles : Bool) : Option FieldInfo :=
  let r := c.fieldAlias field parentLocations parentContainsFiles
  if r.1 = "-" then none
  else
    let canonicalAlias := if parentAlias ≠ "" then parentAlias ++ "." ++ r.1 else r.1
    let m := isTextUnmarshalerTy field.ty
    let ft := indirectType field.ty
    let p : Bool × GoTy :=
      match ft with
      | .slice e => (true, indirectType e)
      | _ => (false, ft)
    let isFl := isFile p.2
    let isStruct := isStruktTy p.2
    if !isStruct && !isFl && (c.converter p.2).isNone && (builtinConverters p.2).isNone then
      none
    else
      some { typ := field.ty, name := field.name, «alias» := r.1, locations := r.2.1,
             locationsDefined := r.2.2, canonicalAlias := canonicalAlias,
             unmarshalerInfo := m, isSliceOfStructs := p.1 && isStruct,
             isAnonymous := field.anonymous }

/-- `reflect.Type.Elem` (for pointer and slice types). -/
def goElemTy : GoTy → GoTy
  | .ptr t => t
  | .slice t => t
  | t => t

/-- The promotion loop of `cache.create` (`cache.go` lines 237–246): for each
embedded struct's metadata, append its fields unless some *other* collected
metadata (the parent's accumulated fields, or any other embedded struct at
this depth) already carries the alias. -/
def promoteStep (anons : List StructInfo) (info : StructInfo) (i : Nat) : StructInfo :=
  match anons.get? i with
  | none => info
  | some a =>
    a.fields.foldl (fun inf f =>
      if containsAlias (inf :: (anons.take i ++ anons.drop (i + 1))) f.«alias» then inf
      else { inf with fields := inf.fields ++ [f] }) info

def promote (info : StructInfo) (anons : List StructInfo) : StructInfo :=
  (List.range anons.length).foldl (promoteStep anons) info

/-- The field-collection and promotion part of `cache.create` (`cache.go`
lines 227–246), fuelled on the embedding depth.  Split from the aggregate
flags so that `containsLocation` (which reads only the `fields` of nested
metadata) is not mutually recursive with `create`. -/
def Cache.createFields (c : Cache) : Nat → GoTy → String → List Nat → List FieldInfo
  | 0, _, _, _ => []
  | fuel+1, t, parentAlias, parentLocations =>
    let step := (structFields t).foldl
      (fun (acc : List FieldInfo × List StructInfo) f =>
        match c.createField f parentAlias parentLocations (hasFiles (fuel+1) t) with
        | none => acc
        | some fi =>
          (acc.1 ++ [fi],
           if isStruktTy (indirectType fi.typ) && fi.isAnonymous then
             acc.2 ++
               [{ fields := c.createFields fuel (indirectType fi.typ) fi.canonicalAlias
                    fi.locations }]
           else acc.2))
      ([], [])
    (promote { fields := step.1 } step.2).fields

/-- `cache.containsLocation` (`cache.go`), fuelled on the nesting depth.  The
memo lookup `c.m[t]` hits exactly the struct types eagerly cached by
`createField`, which for the fields present in a metadata list are exactly
the struct-shaped unwrapped types, so the model recreates their field lists. -/
def Cache.containsLocation (c : Cache) : Nat → List FieldInfo → Nat → Bool
  | 0, _, _ => false
  | fuel+1, fields, location =>
    fields.any (fun f =>
      containsInt f.locations location ||
      (let t := indirectType (if f.isSliceOfStructs then goElemTy f.typ else f.typ)
       if isStruktTy t then
         c.containsLocation fuel (c.createFields fuel t "" []) location
       else false))

/-- `cache.create` (`cache.go`): collected and promoted fields plus the
aggregate per-location flags and the top-level JSON alias list. -/
def Cache.create (c : Cache) (fuel : Nat) (t : GoTy) (parentAlias : String)
    (parentLocations : List Nat) : StructInfo :=
  let fields := c.createFields fuel t parentAlias parentLocations
  { fields := fields,
    containsPath := c.containsLocation fuel fields LocationPath,
    containsQuery := c.containsLocation fuel fields LocationQuery,
    containsForm := c.containsLocation fuel fields LocationForm,
    containsFile := c.containsLocation fuel fields LocationFile,
    containsHeader := c.containsLocation fuel fields LocationHeader,
    containsJSON := c.containsLocation fuel fields LocationJSON,
    fieldsJSON := fieldsAliases (getWithLocation fields [LocationJSON]) }

/-- `cache.get` (`cache.go`): memoised metadata lookup.  Since `create` is a
deterministic pure function of the type (spec 4.2: duplicate concurrent
builds converge), the memo is semantically transparent and `get` re-runs
`create`. -/
def Cache.get (c : Cache) (fuel : Nat) (t : GoTy) : StructInfo :=
  c.create fuel t "" []

/-! ## The address resolver (`cache.parsePath`, `cache.go`) -/

/-- `pathPart` (`cache.go`). -/
structure PathPart where
  field : FieldInfo
  path : List String
  index : Int

/-- The token-walking loop of `cache.parsePath` (`cache.go` lines 135–188).
Returns the accumulated index checkpoints, the trailing hop list, the last
resolved field and the innermost explicitly-declared location list.  The
`i++` consuming the slice index is the step to `idxKey` in the
slice-of-structs branch; `rest = []` there is the `i+1 > len(keys)` error. -/
def parsePathLoop (c : Cache) (fuel : Nat) :
    List String → GoTy → List String → List PathPart → List Nat → Option FieldInfo →
    Except DErr (List PathPart × List String × Option FieldInfo × List Nat)
  | [], _, path, parts, lastDef, lastField => .ok (parts, path, lastField, lastDef)
  | key :: rest, t, path, parts, lastDef, _ =>
    if !isStruktTy t then .error .invalidPath
    else
      let struc := c.get fuel t
      match struc.get key with
      | none => .error .invalidPath
      | some field =>
        let lastDef := if field.locationsDefined then field.locations else lastDef
        let path := path ++ [field.name]
        if field.isSliceOfStructs && !isFileHeadersPtrs field.typ &&
            !isFileHeaders field.typ &&
            (!field.unmarshalerInfo.isValid ||
              (field.unmarshalerInfo.isValid && field.unmarshalerInfo.isSliceElement)) then
          match rest with
          | [] => .error .invalidPath
          | idxKey :: rest2 =>
            match goParseInt idxKey with
            | none => .error .invalidPath
            | some index64 =>
              let parts := parts ++ [{ field := field, path := path, index := index64 }]
              let t := indirectType field.typ
              let t :=
                match t with
                | .slice e => indirectType e
                | _ => t
              parsePathLoop c fuel rest2 t [] parts lastDef (some field)
        else
          parsePathLoop c fuel rest (indirectType field.typ) path parts lastDef (some field)

/-- `cache.parsePath` (`cache.go`): split the key, walk the tokens, authorize
the location, and append the terminal part (index `-1`).  The `field` local of
the source is nil only when the key list is empty, which `splitPath` never
produces; that branch is mapped to `invalidPath` (Go would dereference nil). -/
def Cache.parsePath (c : Cache) (fuel : Nat) (p : String) (t : GoTy) (location : Nat) :
    Except DErr (List PathPart) :=
  match c.splitPath p with
  | .error e => .error e
  | .ok keys =>
    match parsePathLoop c fuel keys t [] [] [] none with
    | .error e => .error e
    | .ok (parts, path, lastField, lastDef) =>
      match lastField with
      | none => .error .invalidPath
      | some field =>
        if lastDef ≠ [] then
          if !containsInt lastDef location then
            .error (.locationErr p lastDef location)
          else .ok (parts ++ [{ field := field, path := path, index := -1 }])
        else
          if !containsInt field.locations location then
            .error (.locationErr p field.locations location)
          else .ok (parts ++ [{ field := field, path := path, index := -1 }])

/-! ## The decoder configuration (`Decoder`, decoder file) -/

/-- The `Decoder` struct (decoder file).  `maxMemory` (only handed to
`ParseMultipartForm`) and the `pathExtractor` function itself are collaborator
concerns; the model keeps the flag for whether an extractor is installed and
reads the extracted parameters from the request model. -/
structure Decoder where
  cache : Cache
  zeroEmpty : Bool := false
  ignoreUnknownKeys : Bool := true
  collectErrors : Bool := false
  hasPathExtractor : Bool := false

/-- `NewDecoder` (decoder file). -/
def NewDecoder : Decoder :=
  { cache := newCache, ignoreUnknownKeys := true }

/-! ## The source merger (`Decoder.merge` / `Decoder.checkFiles`, decoder file) -/

/-- The maps `Decoder.merge` mutates: the merged value map `m`, the resolved
path cache `ps` and the error map `errors` (association lists standing for Go
maps; iteration order of the model is list order, Go's map order being
unspecified). -/
structure MergeSt where
  m : List (String × List String)
  ps : List (String × List PathPart)
  errors : List (String × DErr)

/-- Association-map update `m[k] = append(m[k], vs...)`. -/
def assocAppend (m : List (String × List String)) (k : String) (vs : List String) :
    List (String × List String) :=
  m.map (fun p => if p.1 == k then (p.1, p.2 ++ vs) else p)

/-- The two-character bracket-suffix strip opening `Decoder.merge`'s loop
(decoder file): `if rune(k[len(k)-2]) == d.cache.sepLeft &&
rune(k[len(k)-1]) == d.cache.sepRight { k = k[:len(k)-2] }`.  Go evaluates
`k[len(k)-2]` unconditionally, an out-of-range access whenever the key is
shorter than two bytes; `none` models that runtime panic. -/
def stripBracketSuffix (c : Cache) (k : String) : Option String :=
  match (k.toList.get? (k.length - 2), k.toList.get? (k.length - 1)) with
  | (some c1, some c2) =>
    if k.length < 2 then none
    else if c1 = c.sepLeft && c2 = c.sepRight then
      some (String.mk (k.toList.take (k.length - 2)))
    else some k
  | _ => none

/-- `Decoder.merge` (decoder file), iterating the source map as a list.
`none` models the runtime panic of the suffix strip on a short key; an early
`some` carries the state accumulated up to a fail-fast return. -/
def Decoder.merge (d : Decoder) (fuel : Nat) (t : GoTy) (location : Nat) :
    List (String × List String) → MergeSt → Option MergeSt
  | [], st => some st
  | (pk, v) :: mm, st =>
    match stripBracketSuffix d.cache pk with
    | none => none
    | some k =>
      if (st.m.lookup k).isSome then
        d.merge fuel t location mm { st with m := assocAppend st.m k v }
      else if (st.ps.lookup k).isSome then
        d.merge fuel t location mm st
      else
        match d.cache.parsePath fuel k t location with
        | .ok parts =>
          d.merge fuel t location mm
            { st with ps := st.ps ++ [(k, parts)], m := st.m ++ [(k, v)] }
        | .error err =>
          -- the source compares `err == invalidPath` and treats every other
          -- error uniformly
          if err = .invalidPath then
            if !d.ignoreUnknownKeys then
              let st := { st with errors := st.errors ++ [(k, .unknownKey k)] }
              if !d.collectErrors then some st
              else d.merge fuel t location mm st
            else d.merge fuel t location mm st
          else
            let st := { st with errors := st.errors ++ [(k, err)] }
            if !d.collectErrors then some st
            else d.merge fuel t location mm st

/-- `Decoder.checkFiles` (decoder file): resolve every file key at the file
location, recording parts and surfacing `invalidPath` as `UnknownKeyError`
(or dropping it) exactly like `merge`; no suffix strip is involved. -/
def Decoder.checkFiles (d : Decoder) (fuel : Nat) (t : GoTy) :
    List (String × List FH) → List (String × List PathPart) → List (String × DErr) →
    List (String × List PathPart) × List (String × DErr)
  | [], ps, errors => (ps, errors)
  | (k, _) :: m, ps, errors =>
    match d.cache.parsePath fuel k t LocationFile with
    | .ok parts => d.checkFiles fuel t m (ps ++ [(k, parts)]) errors
    | .error err =>
      if err = .invalidPath then
        if !d.ignoreUnknownKeys then
          let errors := errors ++ [(k, .unknownKey k)]
          if !d.collectErrors then (ps, errors)
          else d.checkFiles fuel t m ps errors
        else d.checkFiles fuel t m ps errors
      else
        let errors := errors ++ [(k, err)]
        if !d.collectErrors then (ps, errors)
        else d.checkFiles fuel t m ps errors

/-! ## Values, zero values and field access (`reflect.Value` operations) -/

/-- `reflect.Zero` / `reflect.New(...).Elem()`, fuelled on nesting depth. -/
def zeroVal : Nat → GoTy → GoVal
  | 0, _ => .int 0
  | zf+1, t =>
    match t with
    | .int => .int 0
    | .str => .str ""
    | .ptr _ => .ptr none
    | .slice _ => .slice []
    | .strukt _ fs => .strukt (fs.map (fun f => (f.name, zeroVal zf f.ty)))
    | .file => .fileV none

/-- The type of the struct field named `n` (`reflect.StructField` lookup).
`parsePath` only emits names of existing fields, so `none` is unreachable on
resolved addresses. -/
def structFieldTy (t : GoTy) (n : String) : Option GoTy :=
  match t with
  | .strukt _ fs => (fs.find? (fun f => f.name == n)).map GoField.ty
  | _ => none

/-- `reflect.Value.FieldByName`. -/
def structFieldVal (v : GoVal) (n : String) : GoVal :=
  match v with
  | .strukt fs =>
    match fs.lookup n with
    | some x => x
    | none => .int 0
  | _ => .int 0

/-- Writing back a struct field (the effect of `reflect.Value.Set` through a
field obtained by `FieldByName`). -/
def setStructField (v : GoVal) (n : String) (x : GoVal) : GoVal :=
  match v with
  | .strukt fs => .strukt (fs.map (fun p => if p.1 == n then (p.1, x) else p))
  | _ => v

/-- `reflect.Value.CanSet` along a walked hop list: settable exactly when every
traversed field is exported (first character upper-case). -/
def isExportedName (s : String) : Bool :=
  match s.toList with
  | c :: _ => c.isUpper
  | [] => false

/-! ## The sequence-position memo (`lens`, decoder file)

Go keys the outer map by `reflect.Value` identity; for the tree-shaped values
the decoder builds, that identity is exactly the chain of field names and
allocated slice slots leading from the root to the container, which is what
the model uses as key. -/

abbrev Lens : Type := List (List String × List (Int × Nat))

def lensLookup (lens : Lens) (k : List String) (idx : Int) : Option Nat :=
  match lens.lookup k with
  | some m => m.lookup idx
  | none => none

def lensInsert (lens : Lens) (k : List String) (idx : Int) (slot : Nat) : Lens :=
  match lens.lookup k with
  | some _ => lens.map (fun p => if p.1 == k then (p.1, p.2 ++ [(idx, slot)]) else p)
  | none => lens ++ [(k, [(idx, slot)])]

/-! ## Leaf coercion (`Decoder.decode`, decoder file, lines 263–447) -/

/-- The `encoding.TextUnmarshaler` call sites of `Decoder.decode`.  No type
expressible in `GoTy` implements the interface (`isTextUnmarshalerTy` never
sets `isValid`), so these branches are unreachable in the model; the value
keeps the source's error shape. -/
def modelUnmarshalText (path : String) (tk : String) (idx : Int) (value : String) :
    Except DErr GoVal :=
  .error (.conversionErr path tk idx (some ("cannot unmarshal " ++ value)))

def wrapElem (isPtrElem : Bool) (x : GoVal) : GoVal :=
  if isPtrElem then .ptr (some x) else x

/-- The inner comma-split loop of `Decoder.decode`'s sequence branch (decoder
file, lines 354–378): convert each part independently; a failing part yields
`ConversionError{Key: path, Type: elemT, Index: key}`. -/
def convertParts (d : Decoder) (zf : Nat) (path : String) (elemT : GoTy)
    (isPtrElem : Bool) (conv : Converter) (key : Nat) :
    List String → List GoVal → Except DErr (List GoVal)
  | [], items => .ok items
  | value :: rest, items =>
    if value = "" then
      if d.zeroEmpty then
        convertParts d zf path elemT isPtrElem conv key rest (items ++ [zeroVal zf elemT])
      else convertParts d zf path elemT isPtrElem conv key rest items
    else
      match conv value with
      | some item =>
        convertParts d zf path elemT isPtrElem conv key rest
          (items ++ [wrapElem isPtrElem item])
      | none => .error (.conversionErr path (tyKey elemT) key none)

/-- The per-raw-value loop of `Decoder.decode`'s sequence branch (decoder
file, lines 318–387): unmarshal or convert each value; on conversion failure
of a comma-containing value, fall back to `convertParts`; otherwise fail with
`ConversionError` at that value's index. -/
def convertSeq (d : Decoder) (zf : Nat) (path : String) (t elemT : GoTy)
    (isPtrElem : Bool) (conv : Converter) (m : Unmarshaler) :
    List (Nat × String) → List GoVal → Except DErr (List GoVal)
  | [], items => .ok items
  | (key, value) :: rest, items =>
    if value = "" then
      if d.zeroEmpty then
        convertSeq d zf path t elemT isPtrElem conv m rest (items ++ [zeroVal zf elemT])
      else convertSeq d zf path t elemT isPtrElem conv m rest items
    else if m.isValid then
      match modelUnmarshalText path (tyKey t) key value with
      | .error e => .error e
      | .ok item =>
        convertSeq d zf path t elemT isPtrElem conv m rest (items ++ [item])
    else
      match conv value with
      | some item =>
        convertSeq d zf path t elemT isPtrElem conv m rest
          (items ++ [wrapElem isPtrElem item])
      | none =>
        if chContains ',' value then
          match convertParts d zf path elemT isPtrElem conv key (chSplit ',' value) [] with
          | .error e => .error e
          | .ok items2 =>
            convertSeq d zf path t elemT isPtrElem conv m rest (items ++ items2)
        else .error (.conversionErr path (tyKey elemT) key none)

/-- The scalar-field tail of `Decoder.decode` (decoder file, lines 390–446):
last raw value, then registered converter → text unmarshaler → empty-string
policy → builtin converter → "converter not found". -/
def scalarAssign (d : Decoder) (zf : Nat) (path : String) (values : List String)
    (t : GoTy) (v : GoVal) : GoVal × Option DErr :=
  let conv := d.cache.converter t
  let m := isTextUnmarshalerTy t
  let val :=
    match values.getLast? with
    | some s => s
    | none => ""
  match conv with
  | some cv =>
    match cv val with
    | some value => (value, none)
    | none => (v, some (.conversionErr path (tyKey t) (-1) none))
  | none =>
    if m.isValid then
      match modelUnmarshalText path (tyKey t) (-1) val with
      | .error e => (v, some e)
      | .ok value => (value, none)
    else if val = "" then
      if d.zeroEmpty then (zeroVal zf t, none) else (v, none)
    else
      match builtinConverters t with
      | some cv =>
        match cv val with
        | some value => (value, none)
        | none => (v, some (.conversionErr path (tyKey t) (-1) none))
      | none => (v, some (.converterNotFound (tyKey t)))

/-- The string-values branch of `Decoder.decode` (decoder file, lines
299–446): the sequence branch applies when no converter is registered for the
field type itself, the type is a slice and the unmarshaler probe marked a
slice element; otherwise the scalar tail runs. -/
def valuesAssign (d : Decoder) (zf : Nat) (path : String) (values : List String)
    (t : GoTy) (v : GoVal) : GoVal × Option DErr :=
  let conv := d.cache.converter t
  let m := isTextUnmarshalerTy t
  match t with
  | .slice elemT0 =>
    if conv.isNone && m.isSliceElement then
      let isPtrElem :=
        match elemT0 with
        | .ptr _ => true
        | _ => false
      let elemT := indirectType elemT0
      let conv2 :=
        match d.cache.converter elemT with
        | some cv => some cv
        | none => builtinConverters elemT
      match conv2 with
      | none => (v, some (.converterNotFound (tyKey elemT)))
      | some cv =>
        match convertSeq d zf path t elemT isPtrElem cv m values.enum [] with
        | .ok items => (.slice items, none)
        | .error e => (v, some e)
    else scalarAssign d zf path values t v
  | _ => scalarAssign d zf path values t v

/-- The stream-opening loop of `Decoder.decode`'s `isFiles` branch (decoder
file, lines 278–289).  First component: the opened streams, or the first
`Open` error; second component: the streams the loop closes before returning
that error (every stream opened for an earlier file — the source additionally
invokes `Close` on the handle returned by the failed `Open` itself, a nil
interface under the collaborator convention of returning no stream with an
error). -/
def openFilesLoop : List FH → List Nat → Except String (List Nat) × List Nat
  | [], acc => (.ok acc, [])
  | f :: rest, acc =>
    match f.openResult with
    | .ok s => openFilesLoop rest (acc ++ [s])
    | .error e => (.error e, acc)

/-- The file branch of `Decoder.decode` (decoder file, lines 263–298):
dispatch on the field's exact file shape. -/
def fileAssign (fs : List FH) (t : GoTy) (v : GoVal) : GoVal × Option DErr :=
  if isFileHeadersPtrs t then
    (.slice (fs.map (fun f => .ptr (some (.fileHeaderV f)))), none)
  else if isFileHeaderPtr t then
    match fs with
    | f :: _ => (.ptr (some (.fileHeaderV f)), none)
    | [] => (v, none)
  else if isFileHeaders t then (.slice (fs.map GoVal.fileHeaderV), none)
  else if isFileHeader t then
    match fs with
    | f :: _ => (.fileHeaderV f, none)
    | [] => (v, none)
  else if isFiles t then
    match openFilesLoop fs [] with
    | (.ok streams, _) => (.slice (streams.map (fun s => GoVal.fileV (some s))), none)
    | (.error e, _) => (v, some (.openErr e))
  else if isFile t then
    match fs with
    | f :: _ =>
      match f.openResult with
      | .ok s => (.fileV (some s), none)
      | .error e => (v, some (.openErr e))
    | [] => (v, none)
  else (v, none)

/-- The terminal dispatch of `Decoder.decode`: files, then string values, else
nothing to write. -/
def leafAssign (d : Decoder) (zf : Nat) (path : String) (values : List String)
    (fs : List FH) (t : GoTy) (v : GoVal) : GoVal × Option DErr :=
  if fs ≠ [] then fileAssign fs t v
  else if values ≠ [] then valuesAssign d zf path values t v
  else (v, none)

/-! ## The value writer (`Decoder.decode`, decoder file) -/

/-- `Decoder.decode` (decoder file).  `parts` keeps the part being processed
at its head while `names` holds the not-yet-walked hops of that part
(initially `parts.head.path`); `mk` is the identity of `v` (the chain of
field names and slice slots from the root), keying the sequence-position
memo.  The `df` fuel bounds the recursion (one unit per hop and per part);
`partsFuel` below always suffices.  The result carries the updated value, the
updated memo and the error, mutations being kept on error exactly as in the
source (where they happen through pointers before the error returns). -/
def Decoder.decode (d : Decoder) (zf : Nat) (path : String) (values : List String)
    (fs : List FH) :
    Nat → List PathPart → List String → GoTy → GoVal → List String → Lens →
    GoVal × Lens × Option DErr
  | 0, _, _, _, v, _, lens => (v, lens, none)
  | df+1, parts, n :: rest, t, v, idv, lens =>
    -- one step of the hop walk (source lines 224–232): pointer deref
    -- (allocating through nil), then `FieldByName`
    let isPtrT :=
      match t with
      | .ptr _ => true
      | _ => false
    let q : GoTy × GoVal :=
      match t, v with
      | .ptr te, .ptr pv =>
        (te, match pv with
             | some x => x
             | none => zeroVal zf te)
      | _, _ => (t, v)
    match structFieldTy q.1 n with
    | none => (v, lens, none)
    | some tf =>
      let r := d.decode zf path values fs df parts rest tf (structFieldVal q.2 n) idv lens
      let v1 := setStructField q.2 n r.1
      ((if isPtrT then .ptr (some v1) else v1), r.2.1, r.2.2)
  | _+1, [], [], _, v, _, lens => (v, lens, none)
  | df+1, p :: restParts, [], t, v, idv, lens =>
    -- the walk of `p.path` is complete: `CanSet`, pointer unwrap (skipped for
    -- file values), then either the slice checkpoint or the leaf
    if !p.path.all isExportedName then (v, lens, none)
    else
      let isPtrT :=
        match t with
        | .ptr _ => true
        | _ => false
      let q : GoTy × GoVal :=
        if fs = [] then
          match t, v with
          | .ptr te, .ptr pv =>
            (te, match pv with
                 | some x => x
                 | none => zeroVal zf te)
          | _, _ => (t, v)
        else (t, v)
      let rewrap : GoVal → GoVal := fun x =>
        if fs = [] && isPtrT then .ptr (some x) else x
      match restParts with
      | [] =>
        let r := leafAssign d zf path values fs q.1 q.2
        (rewrap r.1, lens, r.2)
      | np :: _ =>
        match q.1, q.2 with
        | .slice et, .slice elems =>
          let mkey := idv ++ p.path
          let w : Nat × List GoVal × Lens :=
            match lensLookup lens mkey p.index with
            | some idx => (idx, elems, lens)
            | none =>
              (elems.length, elems ++ [zeroVal zf et],
               lensInsert lens mkey p.index elems.length)
          let ev :=
            match w.2.1.get? w.1 with
            | some x => x
            | none => zeroVal zf et
          let r := d.decode zf path values fs df restParts np.path et ev
                     (mkey ++ [toString w.1]) w.2.2
          (rewrap (.slice (w.2.1.set w.1 r.1)), r.2.1, r.2.2)
        | _, _ => (rewrap q.2, lens, none)

/-- A fuel amount sufficient for `Decoder.decode` on a given part list. -/
def partsFuel (parts : List PathPart) : Nat :=
  parts.foldl (fun a p => a + p.path.length + 1) 1

/-- Entry into `Decoder.decode` for a resolved key (names initialised to the
first part's hop list, identity rooted at the target record). -/
def Decoder.decodeEntry (d : Decoder) (zf : Nat) (path : String) (values : List String)
    (fs : List FH) (parts : List PathPart) (t : GoTy) (v : GoVal) (lens : Lens) :
    GoVal × Lens × Option DErr :=
  match parts with
  | [] => (v, lens, none)
  | p :: _ => d.decode zf path values fs (partsFuel parts) parts p.path t v [] lens

/-! ## Natural key order and `Decoder.decodeMaps` (decoder file) -/

/-- Modelled from the spec: natural-order string comparison (`natsort.Sort`
is an external dependency whose source is not given).  Spec 4.4: keys are
visited in natural, numeral-ordered sorted order — digit runs compare by
numeric value, everything else lexicographically. -/
def natLtF : Nat → List Char → List Char → Bool
  | 0, _, _ => false
  | fuel+1, a, b =>
    match a, b with
    | [], [] => false
    | [], _ :: _ => true
    | _ :: _, [] => false
    | x :: xs, y :: ys =>
      if x.isDigit && y.isDigit then
        let da := digitsVal ((x :: xs).takeWhile Char.isDigit)
        let db := digitsVal ((y :: ys).takeWhile Char.isDigit)
        if da ≠ db then decide (da < db)
        else natLtF fuel ((x :: xs).dropWhile Char.isDigit) ((y :: ys).dropWhile Char.isDigit)
      else if x = y then natLtF fuel xs ys
      else decide (x < y)

def natLess (a b : String) : Bool :=
  natLtF (a.length + b.length + 1) a.toList b.toList

def natInsert (x : String) : List String → List String
  | [] => [x]
  | y :: ys => if natLess x y then x :: y :: ys else y :: natInsert x ys

/-- `natsort.Sort` on a key list (insertion sort by `natLess`; deterministic
on the pairwise strictly ordered key sets of the claims). -/
def natsortList (l : List String) : List String := l.foldr natInsert []

/-- The per-key loop of `Decoder.decodeMaps` (decoder file): process the
sorted keys, skipping unresolved ones, decoding from the value map or else
from the file map, accumulating errors and stopping at the first one unless
collect-errors is on. -/
def Decoder.decodeMapsLoop (d : Decoder) (zf : Nat) (t : GoTy)
    (srcM : List (String × List String)) (srcF : List (String × List FH))
    (ps : List (String × List PathPart)) :
    List String → GoVal → Lens → List (String × DErr) →
    GoVal × Lens × List (String × DErr)
  | [], v, lens, errors => (v, lens, errors)
  | path :: keys, v, lens, errors =>
    match ps.lookup path with
    | none => d.decodeMapsLoop zf t srcM srcF ps keys v lens errors
    | some parts =>
      match srcM.lookup path with
      | some m =>
        let r := d.decodeEntry zf path m [] parts t v lens
        match r.2.2 with
        | some e =>
          if !d.collectErrors then (r.1, r.2.1, errors ++ [(path, e)])
          else d.decodeMapsLoop zf t srcM srcF ps keys r.1 r.2.1 (errors ++ [(path, e)])
        | none => d.decodeMapsLoop zf t srcM srcF ps keys r.1 r.2.1 errors
      | none =>
        match srcF.lookup path with
        | some fsv =>
          let r := d.decodeEntry zf path [] fsv parts t v lens
          match r.2.2 with
          | some e =>
            if !d.collectErrors then (r.1, r.2.1, errors ++ [(path, e)])
            else d.decodeMapsLoop zf t srcM srcF ps keys r.1 r.2.1 (errors ++ [(path, e)])
          | none => d.decodeMapsLoop zf t srcM srcF ps keys r.1 r.2.1 errors
        | none => d.decodeMapsLoop zf t srcM srcF ps keys v lens errors

/-- `Decoder.decodeMaps` (decoder file): natural-sort the union of value and
file keys, then run the per-key loop. -/
def Decoder.decodeMaps (d : Decoder) (zf : Nat) (t : GoTy) (v : GoVal)
    (srcM : List (String × List String)) (srcF : List (String × List FH))
    (ps : List (String × List PathPart)) (lens : Lens)
    (errors : List (String × DErr)) : GoVal × List (String × DErr) :=
  let keys := natsortList (srcM.map Prod.fst ++ srcF.map Prod.fst)
  let r := d.decodeMapsLoop zf t srcM srcF ps keys v lens errors
  (r.1, r.2.2)

/-! ## JSON bodies and `flatten` (decoder file) -/

/-- JSON values as decoded into `map[string]interface{}`.  Numbers are kept as
integers: `encoding/json` produces `float64`, and for the integral values of
the claims `fmt.Sprint` renders the float exactly as the integer literal. -/
inductive Json where
  | num : Int → Json
  | str : String → Json
  | jbool : Bool → Json
  | null : Json
  | obj : List (String × Json) → Json
  | arr : List Json → Json

/-- `fmt.Sprint` on a decoded JSON leaf.  Nested non-object arrays (which
`flatten` would `Sprint` wholesale) occur in no claim and render as a
placeholder. -/
def jsonSprint : Json → String
  | .num n => toString n
  | .str s => s
  | .jbool b => if b then "true" else "false"
  | .null => "<nil>"
  | .obj _ => "map"
  | .arr _ => "array"

/-- Association-map assignment `mm[k] = v`. -/
def assocSet (m : List (String × List String)) (k : String) (v : List String) :
    List (String × List String) :=
  if (m.lookup k).isSome then m.map (fun p => if p.1 == k then (p.1, v) else p)
  else m ++ [(k, v)]

/-- Association-map append `mm[k] = append(mm[k], s)`. -/
def assocPush (m : List (String × List String)) (k : String) (s : String) :
    List (String × List String) :=
  match m.lookup k with
  | some vs => m.map (fun p => if p.1 == k then (p.1, vs ++ [s]) else p)
  | none => m ++ [(k, [s])]

/-- `flatten` (decoder file): nested objects become dotted keys, arrays of
objects index-joined dotted keys, other array elements append to the key's
value list, and plain leaves become singleton value lists.  Fuelled on JSON
nesting depth; iteration is in list order (Go map order is unspecified). -/
def flatten : Nat → List (String × Json) → List (String × List String)
  | 0, _ => []
  | fuel+1, m =>
    m.foldl (fun mm kv =>
      match kv.2 with
      | .obj inner =>
        (flatten fuel inner).foldl (fun mm p => assocSet mm (kv.1 ++ "." ++ p.1) p.2) mm
      | .arr elems =>
        elems.enum.foldl (fun mm p =>
          match p.2 with
          | .obj inner =>
            (flatten fuel inner).foldl
              (fun mm q => assocSet mm (kv.1 ++ "." ++ toString p.1 ++ "." ++ q.1) q.2) mm
          | other => assocPush mm kv.1 (jsonSprint other)) mm
      | other => assocSet mm kv.1 [jsonSprint other]) []

/-- Modelled from the spec: `encoding/json` unmarshalling into a struct (the
all-body fast path of `Decoder.Decode` delegates the entire body to it; the
spec treats JSON body unmarshalling as an external collaborator, and its
source is not part of the engine).  Fields match by their `json` tag name or
field name; unknown body keys are ignored, exactly the `encoding/json`
behaviour the decoder's own documentation refers to. -/
def jsonFieldName (f : GoField) : String :=
  let tag := parseTag (tagGet f.tags "json")
  if tag ≠ "" && tag ≠ "-" then tag else f.name

def jsonUnmarshalValue : Nat → GoTy → Json → GoVal → GoVal
  | 0, _, _, v => v
  | fuel+1, t, j, v =>
    match t, j with
    | .int, .num n => .int n
    | .str, .str s => .str s
    | .ptr te, j => .ptr (some (jsonUnmarshalValue fuel te j (zeroVal fuel te)))
    | .slice te, .arr es =>
      .slice (es.map (fun e => jsonUnmarshalValue fuel te e (zeroVal fuel te)))
    | .strukt _ fs, .obj kvs =>
      .strukt (fs.map (fun f =>
        match kvs.find? (fun kv => kv.1 == jsonFieldName f) with
        | some kv => (f.name, jsonUnmarshalValue fuel f.ty kv.2 (structFieldVal v f.name))
        | none => (f.name, structFieldVal v f.name)))
    | _, _ => v

/-! ## The request model and `Decoder.extractMap` (decoder file) -/

/-- The normalized multi-source shape the collaborator supplies (spec 6): a
method, a content type, the body parsed as a JSON object (`.error` = malformed
JSON), per-source key/value maps, the multipart file map and the extracted
path parameters. -/
structure Request where
  method : String
  contentType : String := ""
  jsonBody : Except String (List (String × Json)) := .error "no body"
  postForm : List (String × List String) := []
  multipartValue : List (String × List String) := []
  multipartFile : List (String × List FH) := []
  query : List (String × List String) := []
  headers : List (String × List String) := []
  pathParams : List (String × String) := []

/-- `isMultipartForm` (decoder file). -/
def isMultipartForm (r : Request) : Bool :=
  goHasPrefix r.contentType "multipart/form-data"

/-- `isURLEncodedForm` (decoder file). -/
def isURLEncodedForm (r : Request) : Bool :=
  r.contentType == "application/x-www-form-urlencoded"

/-- The unknown-top-level-key screen of `Decoder.extractMap`'s JSON branch
(decoder file, lines 86–100): keys matching no top-level JSON alias are
removed from the body map, recorded as `UnknownKeyError` unless unknown keys
are ignored; the third component flags the fail-fast `return nil, nil`. -/
def jsonKeyCheck (d : Decoder) (fieldsJSON : List String) :
    List (String × Json) → List (String × Json) → List (String × DErr) →
    List (String × Json) × List (String × DErr) × Bool
  | [], kept, errors => (kept, errors, false)
  | (k, j) :: rest, kept, errors =>
    if fieldsJSON.contains k then
      jsonKeyCheck d fieldsJSON rest (kept ++ [(k, j)]) errors
    else if !d.ignoreUnknownKeys then
      let errors := errors ++ [(k, .unknownKey k)]
      if !d.collectErrors then (kept, errors, true)
      else jsonKeyCheck d fieldsJSON rest kept errors
    else jsonKeyCheck d fieldsJSON rest kept errors

/-- Result of `Decoder.extractMap`: the merged value map (`none` when the
source returned a nil map on fail-fast), and the mutated `ps`/`errors` maps. -/
structure ExtractRes where
  m : Option (List (String × List String))
  ps : List (String × List PathPart)
  errors : List (String × DErr)

/-- One guarded merge stage of `Decoder.extractMap` followed by its
fail-fast check; the boolean marks the `return nil, nil`. -/
def Decoder.mergeStage (d : Decoder) (fuel : Nat) (t : GoTy) (location : Nat)
    (cond : Bool) (mm : List (String × List String)) (st : MergeSt) :
    Option (MergeSt × Bool) :=
  if cond then
    match d.merge fuel t location mm st with
    | none => none
    | some st' =>
      if !d.collectErrors && st'.errors ≠ [] then some (st', true)
      else some (st', false)
  else some (st, false)

/-- `Decoder.extractMap` (decoder file).  The collaborator parses
(`ParseForm`) are modelled as succeeding — their failure modes are out of the
claims' scope; `none` propagates a merge panic. -/
def Decoder.extractMap (d : Decoder) (fuel zf : Nat) (info : StructInfo) (t : GoTy)
    (r : Request) (ps0 : List (String × List PathPart)) (errors0 : List (String × DErr)) :
    Option (Except TopErr ExtractRes) :=
  let isPost := r.method == "POST" || r.method == "PUT" || r.method == "PATCH"
  let bodyStage : Option (Except TopErr (MergeSt × Bool)) :=
    if isPost then
      if info.containsForm && (isURLEncodedForm r || isMultipartForm r) then
        if info.containsFile then
          (d.mergeStage fuel t LocationForm true r.multipartValue ⟨[], ps0, errors0⟩).map .ok
        else if !isURLEncodedForm r then
          some (.error (.contentTypeErr r.contentType "application/x-www-form-urlencoded"))
        else
          (d.mergeStage fuel t LocationForm true r.postForm ⟨[], ps0, errors0⟩).map .ok
      else if info.containsJSON && !isURLEncodedForm r && !isMultipartForm r then
        match r.jsonBody with
        | .error _ => some (.error (.parsingErr "cannot unmarshal JSON"))
        | .ok mm =>
          let chk := jsonKeyCheck d info.fieldsJSON mm [] errors0
          if chk.2.2 then some (.ok (⟨[], ps0, chk.2.1⟩, true))
          else
            (d.mergeStage fuel t LocationJSON true (flatten zf chk.1)
              ⟨[], ps0, chk.2.1⟩).map .ok
      else some (.ok (⟨[], ps0, errors0⟩, false))
    else some (.ok (⟨[], ps0, errors0⟩, false))
  match bodyStage with
  | none => none
  | some (.error e) => some (.error e)
  | some (.ok (st, aborted)) =>
    if aborted then some (.ok ⟨none, st.ps, st.errors⟩)
    else
      match d.mergeStage fuel t LocationHeader info.containsHeader r.headers st with
      | none => none
      | some (st, true) => some (.ok ⟨none, st.ps, st.errors⟩)
      | some (st, false) =>
        match d.mergeStage fuel t LocationQuery info.containsQuery r.query st with
        | none => none
        | some (st, true) => some (.ok ⟨none, st.ps, st.errors⟩)
        | some (st, false) =>
          match d.mergeStage fuel t LocationPath
              (info.containsPath && d.hasPathExtractor)
              (r.pathParams.map (fun p => (p.1, [p.2]))) st with
          | none => none
          | some (st, true) => some (.ok ⟨none, st.ps, st.errors⟩)
          | some (st, false) => some (.ok ⟨some st.m, st.ps, st.errors⟩)

/-! ## `Decoder.Decode` (decoder file) -/

/-- `Decoder.Decode` (decoder file).  The target is received as its struct
type (the source's pointer-to-struct guard precedes everything modelled
here), starting from the zero value; the result is the decoded record and the
returned error, and `none` propagates a merge panic.  The all-body fast path
(every aggregate flag false except JSON) hands the body wholesale to
`encoding/json`; otherwise files are checked, sources extracted and merged,
and the merged maps decoded. -/
def Decoder.Decode (d : Decoder) (fuel zf : Nat) (t : GoTy) (r : Request) :
    Option (GoVal × Option TopErr) :=
  let v0 := zeroVal zf t
  let info := d.cache.get fuel t
  let isPost := r.method == "POST" || r.method == "PUT" || r.method == "PATCH"
  if isPost && !info.containsPath && !info.containsQuery && !info.containsHeader &&
      !info.containsFile && !info.containsForm && info.containsJSON then
    match r.jsonBody with
    | .error _ => some (v0, some (.parsingErr "cannot unmarshal JSON"))
    | .ok obj => some (jsonUnmarshalValue zf t (.obj obj) v0, none)
  else
    let fileStage :
        Except TopErr (List (String × List FH) × List (String × List PathPart) ×
          List (String × DErr)) :=
      if isPost && info.containsFile then
        if !isMultipartForm r then
          .error (.contentTypeErr r.contentType "multipart/form-data")
        else
          let cf := d.checkFiles fuel t r.multipartFile [] []
          .ok (r.multipartFile, cf.1, cf.2)
      else .ok ([], [], [])
    match fileStage with
    | .error e => some (v0, some e)
    | .ok (fsMap, ps1, errors1) =>
      if isPost && info.containsFile && !d.collectErrors && errors1 ≠ [] then
        some (v0, some (.multi errors1))
      else
        match d.extractMap fuel zf info t r ps1 errors1 with
        | none => none
        | some (.error e) => some (v0, some e)
        | some (.ok res) =>
          if !d.collectErrors && res.errors ≠ [] then some (v0, some (.multi res.errors))
          else
            let dm := d.decodeMaps zf t v0 (res.m.getD []) fsMap res.ps [] res.errors
            if dm.2 ≠ [] then some (dm.1, some (.multi dm.2)) else some (dm.1, none)

/-! ## Concrete instances used by the claims

All Go field names are exported (upper-case), as in the examples the spec's
testable properties describe. -/

/-- The default-configured cache (dot separator, body default location). -/
def c0 : Cache := newCache

/-- The default decoder configuration with unknown keys rejected and error
collection on (the configuration several claims fix). -/
def dStrict : Decoder := { cache := c0, ignoreUnknownKeys := false, collectErrors := true }

/-- Claim C1: two embedded structs, each with a field `X`, colliding on the
alias `X` at the same nesting depth. -/
def tyEmbA : GoTy := .strukt "A" [.mk "X" [] false .int]
def tyEmbB : GoTy := .strukt "B" [.mk "X" [] false .int]
def tyEmb : GoTy := .strukt "T" [.mk "A" [] true tyEmbA, .mk "B" [] true tyEmbB]

/-- A field-info record with alias `X`, as both embedded structs of `tyEmb`
produce for their promoted field. -/
def fiX : FieldInfo :=
  { typ := .int, locations := [LocationJSON], locationsDefined := true, name := "X",
    «alias» := "X", canonicalAlias := "X", unmarshalerInfo := {},
    isSliceOfStructs := false, isAnonymous := false }

/-- Claim C2: a nested record aliased `b` with a field aliased `c`. -/
def tyBB : GoTy := .strukt "BB" [.mk "C" [("json", "c")] false .int]

/-- Claim C2 counterexample type: every field routed to the body. -/
def tyAllJSON : GoTy :=
  .strukt "TJ" [.mk "A" [("json", "aa")] false .int, .mk "B" [("json", "b")] false tyBB]

/-- Claim C2 amended type: the same body-routed fields plus one query-routed
field, so the general extraction path (not the all-body fast path) runs. -/
def tyMixed : GoTy :=
  .strukt "TM" [.mk "A" [("json", "aa")] false .int, .mk "B" [("json", "b")] false tyBB,
    .mk "Q" [("query", "qq")] false .int]

/-- Claim C2: the JSON body `{"aa":1,"b":{"c":2},"z":1}`. -/
def c2body : List (String × Json) :=
  [("aa", .num 1), ("b", .obj [("c", .num 2)]), ("z", .num 1)]

/-- Claim C2: a POST request carrying that JSON body. -/
def c2req : Request :=
  { method := "POST", contentType := "application/json", jsonBody := .ok c2body }

/-- Claim C3: a record with a sequence-of-records field `X`, nested field `N`. -/
def tyT3N : GoTy := .strukt "N" [.mk "N" [] false .str]
def tyT3 : GoTy := .strukt "T3" [.mk "X" [] false (.slice tyT3N)]

/-- Claim C3: the resolved parts for keys `x.5.n` and `x.2.n`. -/
def partsT3_5 : List PathPart := (c0.parsePath 6 "x.5.n" tyT3 LocationJSON).toOption.getD []
def partsT3_2 : List PathPart := (c0.parsePath 6 "x.2.n" tyT3 LocationJSON).toOption.getD []
def psT3 : List (String × List PathPart) :=
  [("x.5.n", partsT3_5), ("x.2.n", partsT3_2)]

/-- Claim C3: the `N` strings of the elements of the `X` sequence of a
decoded `tyT3` record, in sequence order. -/
def c3FieldNs (v : GoVal) : List String :=
  match v with
  | .strukt fs =>
    match fs.lookup "X" with
    | some (.slice es) =>
      es.map (fun e =>
        match e with
        | .strukt gs =>
          match gs.lookup "N" with
          | some (.str s) => s
          | _ => ""
        | _ => "")
    | _ => []
  | _ => []

/-- Claims C4/C6: a scalar integer field and a sequence-of-integers field. -/
def tyScInt : GoTy := .strukt "TS" [.mk "N" [] false .int]
def tySeqInt : GoTy := .strukt "TQ" [.mk "N" [] false (.slice .int)]

def psScInt : List PathPart := (c0.parsePath 6 "n" tyScInt LocationJSON).toOption.getD []
def psSeqInt : List PathPart := (c0.parsePath 6 "n" tySeqInt LocationJSON).toOption.getD []

/-- Claim C4: a converter registered directly for the element type `int`
(behaving like the builtin base-10 parser: it fails on the whole string
`"1,2,3"` and succeeds on each comma-separated part). -/
def cRegElem : Cache :=
  { newCache with regconv := [("int", fun s => (goParseInt s).map GoVal.int)] }
def dRegElem : Decoder := { cache := cRegElem }
def psSeqIntRegElem : List PathPart :=
  (cRegElem.parsePath 6 "n" tySeqInt LocationJSON).toOption.getD []

/-- Claim C4 (amended): a converter registered for the sequence type `[]int`
itself that errors on every input. -/
def cRegSlice : Cache := { newCache with regconv := [("[]int", fun _ => none)] }
def dRegSlice : Decoder := { cache := cRegSlice }
def psSeqIntRegSlice : List PathPart :=
  (cRegSlice.parsePath 6 "n" tySeqInt LocationJSON).toOption.getD []

/-- The default decoder over the default cache. -/
def d0 : Decoder := { cache := c0 }

/-- Claim C5: a field allowing exactly the header location, next to a
query-routed field. -/
def tyT5 : GoTy :=
  .strukt "T5" [.mk "HH" [("name", "hh"), ("from", "header")] false .int,
    .mk "QQ" [("name", "qq"), ("from", "query")] false .int]

/-- Claim C5: the merge of a header-only key supplied via query together with
a well-routed query key, with collect-errors on. -/
def c5merged : MergeSt :=
  (dStrict.merge 6 tyT5 LocationQuery [("hh", ["5"]), ("qq", ["7"])] ⟨[], [], []⟩).getD
    ⟨[], [], []⟩

/-- Claim C8: witness input — an unknown key merged with unknown keys
rejected. -/
def c8merged : MergeSt :=
  (dStrict.merge 6 tyT5 LocationQuery [("zz", ["1"])] ⟨[], [], []⟩).getD ⟨[], [], []⟩

/-- Claim C9: a bracket-grammar cache (`[`, `]`, no inter-group separator). -/
def cBracket : Cache :=
  { regconv := [], sepLeft := '[', sepRight := ']', sep := nullChar }

/-! # Theorems settling the claims -/

/-- C10 (code_bug).  The claim asserts `Decoder.merge`'s two-character
bracket-suffix check performs only in-bounds accesses for every key,
including keys of length zero or one.  The code reads `k[len(k)-2]`
unconditionally, so merging a source map containing the ordinary
single-character key `"a"` (e.g. the query `?a=1`), or an empty key,
evaluates an out-of-range index and panics — the `none` result of the model.
The claim describes the evident intent (spec 4.4 treats the suffix strip as
applying only "when present"); the unguarded indexing is a slip. -/
theorem c10_merge_short_key_panics :
    d0.merge 4 tyScInt LocationQuery [("a", ["1"])] ⟨[], [], []⟩ = none ∧
    d0.merge 4 tyScInt LocationQuery [("", ["1"])] ⟨[], [], []⟩ = none :=
  ⟨rfl, rfl⟩

/-- C4, counterexample.  The claim asserts that when a converter is
registered directly for the element type and fails on the whole string
`"1,2,3"`, decoding returns a single `ConversionError` and does not split on
commas.  With the base-10 integer converter registered for `int` (which
fails on `"1,2,3"`), the code nevertheless splits the value and decodes
`[1,2,3]` with no error. -/
theorem c4_comma_split_counterexample :
    dRegElem.decodeEntry 4 "n" ["1,2,3"] [] psSeqIntRegElem tySeqInt
      (zeroVal 4 tySeqInt) [] =
    (.strukt [("N", .slice [.int 1, .int 2, .int 3])], [], none) := by rfl

/-- C4, amended: a sequence-of-integers field supplied the single raw value
`"1,2,3"` decodes, when no converter is registered for the element or
sequence type, by splitting on the comma into `[1,2,3]`; and when a converter
is registered for the sequence type itself (`[]int`) and fails on the whole
string, decoding returns the single `ConversionError{Key, Type: []int,
Index: -1}` for that key without splitting the value. -/
theorem c4_comma_split_amended :
    (d0.decodeEntry 4 "n" ["1,2,3"] [] psSeqInt tySeqInt (zeroVal 4 tySeqInt) [] =
      (.strukt [("N", .slice [.int 1, .int 2, .int 3])], [], none)) ∧
    (dRegSlice.decodeEntry 4 "n" ["1,2,3"] [] psSeqIntRegSlice tySeqInt
        (zeroVal 4 tySeqInt) [] =
      (.strukt [("N", .slice [])], [],
        some (.conversionErr "n" "[]int" (-1) none))) :=
  ⟨by rfl, by rfl⟩

/-- C2, counterexample.  The claim quantifies over target types whose fields
are all body-routed; for such a type `Decoder.Decode` takes the all-body fast
path, delegating the entire body (here `{"aa":1,"b":{"c":2},"z":1}`) to
`encoding/json`, which ignores the unknown key `"z"`: the call returns no
error at all, never the `UnknownKeyError{z}` the claim requires (unknown keys
are configured to be rejected and collect-errors is on). -/
theorem c2_json_unknown_key_counterexample :
    dStrict.Decode 6 6 tyAllJSON c2req =
      some (.strukt [("A", .int 1), ("B", .strukt [("C", .int 2)])], none) ∧
    (none : Option TopErr) ≠ some (.multi [("z", .unknownKey "z")]) :=
  ⟨by rfl, by intro h; exact Option.noConfusion h⟩

/-- C2, amended: for a target type whose body-routed fields are accompanied
by at least one field routed to a non-body location (so the general
extraction path, not the all-body fast path, handles the JSON body), decoding
the body `{"aa":1,"b":{"c":2},"z":1}` with unknown keys rejected and
collect-errors on yields `UnknownKeyError` exactly for the unknown top-level
key `"z"`, while the recognised aliases `aa` and `b.c` are still decoded and
populate their fields. -/
theorem c2_json_unknown_key_amended :
    dStrict.Decode 6 6 tyMixed c2req =
      some (.strukt [("A", .int 1), ("B", .strukt [("C", .int 2)]), ("Q", .int 0)],
        some (.multi [("z", .unknownKey "z")])) := by rfl

/-- C1, counterexample.  The claim asserts that for two embedded structs
colliding on a promoted alias (here both `A` and `B` embed a field aliased
`X`), the outer, textually first one is kept and the alias resolves to
exactly one field.  The promotion loop checks each embedded struct's fields
against *all other* embedded metadata, so each one's `X` is blocked by the
other: both are dropped, the built metadata keeps only the two anonymous
entries (alias `""`), and `X` resolves to no field at all. -/
theorem c1_embedded_collision_counterexample :
    (c0.create 6 tyEmb "" []).get "X" = none ∧
    (c0.create 6 tyEmb "" []).fields.map (fun f => f.«alias») = ["", ""] :=
  ⟨by rfl, by rfl⟩

/-- The bracketed-grammar scan fails on any character list containing a
whitespace character, from any state: the whitespace test opens the loop
body, and every non-error branch recurses on the tail. -/
theorem splitLoop_space (c : Cache) :
    ∀ (l : List Char) (prev : Option Char) (st : SplitSt),
      l.any goIsSpace = true → splitLoop c l prev st = none := by
  intro l
  induction l with
  | nil => intro prev st h; simp at h
  | cons r rest ih =>
    intro prev st h
    by_cases hs : goIsSpace r = true
    · rw [splitLoop]
      simp [hs]
    · simp only [Bool.not_eq_true] at hs
      have hrest : rest.any goIsSpace = true := by
        simp only [List.any_cons, hs, Bool.false_or] at h
        exact h
      rw [splitLoop]
      simp only [hs, Bool.false_eq_true, if_false]
      repeat' first
        | exact ih _ _ hrest
        | rfl
        | split

/-- C9 (confirmed).  Under the bracketed grammar (left and right bracket
runes configured), every key containing any whitespace character anywhere
fails tokenization with `invalidPath` — never a partial parse. -/
theorem c9_whitespace_invalid (c : Cache) (path : String)
    (hleft : c.sepLeft ≠ nullChar) (hright : c.sepRight ≠ nullChar)
    (hws : path.toList.any goIsSpace = true) :
    c.splitPath path = .error .invalidPath := by
  unfold Cache.splitPath
  rw [if_pos (by simp [hleft, hright])]
  rw [splitLoop_space c path.toList none ⟨[], [], true, false⟩ hws]

/-- C9, witness: the key `"a b"` fails under the `[`/`]` grammar. -/
theorem c9_whitespace_invalid_witness :
    cBracket.splitPath "a b" = .error .invalidPath :=
  c9_whitespace_invalid cBracket "a b" (by decide) (by decide) (by decide)

/-- C5 (confirmed).  For the key `hh`, resolved to a field whose allowed
location list is exactly `[header]`, arriving from any other location — in
particular query — `parsePath` yields `LocationError` carrying that key, the
attempted location and `[header]` as the sole allowed set; merging such a key
with collect-errors on records exactly that error while the other key
(`qq`, query-routed) is still merged and decoded successfully. -/
theorem c5_location_error :
    (∀ loc, loc ∈ [LocationPath, LocationQuery, LocationForm, LocationFile, LocationJSON] →
      c0.parsePath 6 "hh" tyT5 loc = .error (.locationErr "hh" [LocationHeader] loc)) ∧
    dStrict.merge 6 tyT5 LocationQuery [("hh", ["5"]), ("qq", ["7"])] ⟨[], [], []⟩ =
      some c5merged ∧
    c5merged.errors = [("hh", .locationErr "hh" [LocationHeader] LocationQuery)] ∧
    c5merged.m = [("qq", ["7"])] ∧
    dStrict.decodeMaps 6 tyT5 (zeroVal 6 tyT5) c5merged.m [] c5merged.ps []
        c5merged.errors =
      (.strukt [("HH", .int 0), ("QQ", .int 7)],
        [("hh", .locationErr "hh" [LocationHeader] LocationQuery)]) := by
  refine ⟨?_, by rfl, by rfl, by rfl, by rfl⟩
  intro loc h
  fin_cases h <;> rfl

/-- C5, witness: the instance at the query location. -/
theorem c5_location_error_witness :
    c0.parsePath 6 "hh" tyT5 LocationQuery =
      .error (.locationErr "hh" [LocationHeader] LocationQuery) :=
  c5_location_error.1 LocationQuery (by decide)

/-- The stream-opening loop from any accumulator: when every file before the
failing one opens successfully, the loop stops at the failure, returning its
error together with the closed list — the accumulator plus every stream
opened for the earlier files. -/
theorem openFilesLoop_rollback (f : FH) (e : String) (hf : f.openResult = .error e) :
    ∀ (pre post : List FH) (acc : List Nat),
      (∀ g ∈ pre, (g.openResult.toOption).isSome = true) →
      openFilesLoop (pre ++ f :: post) acc =
        (.error e, acc ++ pre.filterMap (fun g => g.openResult.toOption)) := by
  intro pre
  induction pre with
  | nil =>
    intro post acc _
    simp [openFilesLoop, hf]
  | cons g gs ih =>
    intro post acc hpre
    have hg := hpre g (List.mem_cons_self ..)
    obtain ⟨s, hs⟩ : ∃ s, g.openResult = .ok s := by
      cases hgo : g.openResult with
      | ok s => exact ⟨s, rfl⟩
      | error _ => rw [hgo] at hg; simp [Except.toOption] at hg
    simp only [List.cons_append, openFilesLoop, hs, List.append_eq]
    rw [ih post (acc ++ [s]) (fun g' hg' => hpre g' (List.mem_cons_of_mem _ hg'))]
    simp [hs, Except.toOption]

/-- C7 (confirmed).  Writing a batch of uploaded files into a
sequence-of-opened-streams field: when opening the stream for some file fails
(every earlier file in the batch having opened successfully), the loop closes
exactly the streams opened for the earlier files before the error is
returned, and the decoder's file branch surfaces that error without
assigning. -/
theorem c7_file_rollback (pre post : List FH) (f : FH) (e : String) (v : GoVal)
    (hf : f.openResult = .error e)
    (hpre : ∀ g ∈ pre, (g.openResult.toOption).isSome = true) :
    openFilesLoop (pre ++ f :: post) [] =
      (.error e, pre.filterMap (fun g => g.openResult.toOption)) ∧
    fileAssign (pre ++ f :: post) (.slice .file) v = (v, some (.openErr e)) := by
  have h := openFilesLoop_rollback f e hf pre post [] hpre
  refine ⟨by simpa using h, ?_⟩
  unfold fileAssign
  rw [h]
  rfl

/-- C7, witness: a two-file batch whose second file fails to open; the stream
of the first (id 10) is the closed list. -/
theorem c7_file_rollback_witness :
    openFilesLoop [⟨"a", .ok 10⟩, ⟨"b", .error "boom"⟩] [] = (.error "boom", [10]) ∧
    fileAssign [⟨"a", .ok 10⟩, ⟨"b", .error "boom"⟩] (.slice .file) (.slice []) =
      (.slice [], some (.openErr "boom")) :=
  c7_file_rollback [⟨"a", .ok 10⟩] [] ⟨"b", .error "boom"⟩ "boom" (.slice [])
    rfl (by decide)

/-- C6 (confirmed).  A key supplied two raw values: on a scalar integer field
only the last value is assigned (earlier ones discarded); on a
sequence-of-integers field of the same shape every value is converted and
appended in order. -/
theorem c6_last_value_wins (s1 s2 : String) (n1 n2 : Int)
    (h1 : goParseInt s1 = some n1) (h2 : goParseInt s2 = some n2) :
    d0.decodeEntry 4 "n" [s1, s2] [] psScInt tyScInt (zeroVal 4 tyScInt) [] =
      (.strukt [("N", .int n2)], [], none) ∧
    d0.decodeEntry 4 "n" [s1, s2] [] psSeqInt tySeqInt (zeroVal 4 tySeqInt) [] =
      (.strukt [("N", .slice [.int n1, .int n2])], [], none) := by
  have hs1 : ¬ s1 = "" := by
    intro h
    rw [h] at h1
    exact Option.noConfusion h1
  have hs2 : ¬ s2 = "" := by
    intro h
    rw [h] at h2
    exact Option.noConfusion h2
  constructor
  · have e2 : scalarAssign d0 4 "n" [s1, s2] GoTy.int (.int 0) = (GoVal.int n2, none) := by
      show (if s2 = "" then _ else _) = (GoVal.int n2, (none : Option DErr))
      rw [if_neg hs2]
      show (match (goParseInt s2).map GoVal.int with
            | some value => (value, (none : Option DErr))
            | none => (GoVal.int 0, some (DErr.conversionErr "n" "int" (-1) none))) =
          (GoVal.int n2, (none : Option DErr))
      rw [h2]
      rfl
    have e1 : d0.decodeEntry 4 "n" [s1, s2] [] psScInt tyScInt (zeroVal 4 tyScInt) [] =
        (GoVal.strukt [("N", (scalarAssign d0 4 "n" [s1, s2] .int (.int 0)).1)], [],
          (scalarAssign d0 4 "n" [s1, s2] .int (.int 0)).2) := by rfl
    rw [e1, e2]
  · have e2 : convertSeq d0 4 "n" (.slice .int) .int false
        (fun s => (goParseInt s).map GoVal.int) {isSliceElement := true}
        [(0, s1), (1, s2)] [] = .ok [GoVal.int n1, GoVal.int n2] := by
      show (if s1 = "" then _ else _) = _
      rw [if_neg hs1]
      show (match (goParseInt s1).map GoVal.int with
            | some item => convertSeq d0 4 "n" (.slice .int) .int false
                (fun s => (goParseInt s).map GoVal.int) {isSliceElement := true} [(1, s2)]
                ([] ++ [wrapElem false item])
            | none => _) = _
      rw [h1]
      show convertSeq d0 4 "n" (.slice .int) .int false
          (fun s => (goParseInt s).map GoVal.int) {isSliceElement := true} [(1, s2)]
          [GoVal.int n1] = _
      show (if s2 = "" then _ else _) = _
      rw [if_neg hs2]
      show (match (goParseInt s2).map GoVal.int with
            | some item => convertSeq d0 4 "n" (.slice .int) .int false
                (fun s => (goParseInt s).map GoVal.int) {isSliceElement := true} []
                ([GoVal.int n1] ++ [wrapElem false item])
            | none => _) = _
      rw [h2]
      rfl
    have e3 : valuesAssign d0 4 "n" [s1, s2] (GoTy.slice .int) (GoVal.slice []) =
        (GoVal.slice [GoVal.int n1, GoVal.int n2], none) := by
      show (match convertSeq d0 4 "n" (.slice .int) .int false
              (fun s => (goParseInt s).map GoVal.int) {isSliceElement := true}
              [(0, s1), (1, s2)] [] with
            | Except.ok items => ((GoVal.slice items : GoVal), (none : Option DErr))
            | Except.error e => (GoVal.slice [], some e)) = _
      rw [e2]
    have e1 : d0.decodeEntry 4 "n" [s1, s2] [] psSeqInt tySeqInt (zeroVal 4 tySeqInt) [] =
        (GoVal.strukt
            [("N", (valuesAssign d0 4 "n" [s1, s2] (GoTy.slice .int) (GoVal.slice [])).1)],
          ([] : Lens),
          (valuesAssign d0 4 "n" [s1, s2] (GoTy.slice .int) (GoVal.slice [])).2) := by rfl
    rw [e1, e3]

/-- C6, witness: the spec's `?n=1&n=2` instance, decoding to `2` and `[1,2]`. -/
theorem c6_last_value_wins_witness :
    d0.decodeEntry 4 "n" ["1", "2"] [] psScInt tyScInt (zeroVal 4 tyScInt) [] =
      (.strukt [("N", .int 2)], [], none) ∧
    d0.decodeEntry 4 "n" ["1", "2"] [] psSeqInt tySeqInt (zeroVal 4 tySeqInt) [] =
      (.strukt [("N", .slice [.int 1, .int 2])], [], none) :=
  c6_last_value_wins "1" "2" 1 2 (by rfl) (by rfl)

/-- C3, counterexample.  The claim asserts the keys `x.5.n` (value `"a"`) and
`x.2.n` (value `"b"`) yield the sequence `[5-entry, 2-entry]` (the `N`
projection `["a", "b"]`).  `decodeMaps` natural-sorts the keys before
processing, so `x.2.n` is decoded first: the result is densely packed but in
numeric key order — the `N` projection is `["b", "a"]`, not `["a", "b"]`. -/
theorem c3_sequence_order_counterexample :
    d0.decodeMaps 6 tyT3 (zeroVal 6 tyT3) [("x.5.n", ["a"]), ("x.2.n", ["b"])] []
        psT3 [] [] =
      (.strukt [("X", .slice [.strukt [("N", .str "b")], .strukt [("N", .str "a")]])],
        []) ∧
    c3FieldNs (d0.decodeMaps 6 tyT3 (zeroVal 6 tyT3)
        [("x.5.n", ["a"]), ("x.2.n", ["b"])] [] psT3 [] []).1 = ["b", "a"] ∧
    ["b", "a"] ≠ ["a", "b"] :=
  ⟨by rfl, by rfl, by decide⟩

/-- One successful step of the `decodeMaps` loop: a key resolved in `ps` and
present in the value map, whose decode succeeds, carries its updated value
and memo into the rest of the loop. -/
theorem decodeMapsLoop_cons_ok (d : Decoder) (zf : Nat) (t : GoTy)
    (srcM : List (String × List String)) (srcF : List (String × List FH))
    (ps : List (String × List PathPart)) (k : String) (keys : List String)
    (v : GoVal) (lens : Lens) (errors : List (String × DErr))
    (parts : List PathPart) (m : List String) (r : GoVal × Lens × Option DErr)
    (hps : ps.lookup k = some parts) (hm : srcM.lookup k = some m)
    (hr : d.decodeEntry zf k m [] parts t v lens = r) (hok : r.2.2 = none) :
    d.decodeMapsLoop zf t srcM srcF ps (k :: keys) v lens errors =
      d.decodeMapsLoop zf t srcM srcF ps keys r.1 r.2.1 errors := by
  simp only [Decoder.decodeMapsLoop, hps, hm, hr, hok]

/-- C3, amended: decoding the keys `x.5.n` and `x.2.n` (each addressing one
nested record, any non-empty values `a`/`b`) yields the densely packed
two-element sequence with exactly one element per distinct index token,
ordered by the natural (numeral-ordered) key order in which `decodeMaps`
visits the keys: `[2-entry, 5-entry]` — never a sparse six-element sequence. -/
theorem c3_sequence_order_amended (a b : String) (ha : ¬ a = "") (hb : ¬ b = "") :
    d0.decodeMaps 6 tyT3 (zeroVal 6 tyT3) [("x.5.n", [a]), ("x.2.n", [b])] []
        psT3 [] [] =
      (.strukt [("X", .slice [.strukt [("N", .str b)], .strukt [("N", .str a)]])],
        []) := by
  have esb : scalarAssign d0 6 "x.2.n" [b] GoTy.str (.str "") = (GoVal.str b, none) := by
    show (if b = "" then _ else _) = (GoVal.str b, (none : Option DErr))
    rw [if_neg hb]
    rfl
  have esa : scalarAssign d0 6 "x.5.n" [a] GoTy.str (.str "") = (GoVal.str a, none) := by
    show (if a = "" then _ else _) = (GoVal.str a, (none : Option DErr))
    rw [if_neg ha]
    rfl
  have eb : d0.decodeEntry 6 "x.2.n" [b] [] partsT3_2 tyT3 (zeroVal 6 tyT3) [] =
      (GoVal.strukt [("X", GoVal.slice
          [GoVal.strukt [("N", GoVal.str b)]])],
        [(["X"], [((2 : Int), 0)])], none) := by
    have estep : d0.decodeEntry 6 "x.2.n" [b] [] partsT3_2 tyT3 (zeroVal 6 tyT3) [] =
        (GoVal.strukt [("X", GoVal.slice
            [GoVal.strukt [("N", (scalarAssign d0 6 "x.2.n" [b] GoTy.str (.str "")).1)]])],
          [(["X"], [((2 : Int), 0)])],
          (scalarAssign d0 6 "x.2.n" [b] GoTy.str (.str "")).2) := by rfl
    rw [estep, esb]
  have ea : d0.decodeEntry 6 "x.5.n" [a] [] partsT3_5 tyT3
      (GoVal.strukt [("X", GoVal.slice [GoVal.strukt [("N", GoVal.str b)]])])
      [(["X"], [((2 : Int), 0)])] =
      (GoVal.strukt [("X", GoVal.slice
          [GoVal.strukt [("N", GoVal.str b)], GoVal.strukt [("N", GoVal.str a)]])],
        [(["X"], [((2 : Int), 0), ((5 : Int), 1)])], none) := by
    have estep : d0.decodeEntry 6 "x.5.n" [a] [] partsT3_5 tyT3
        (GoVal.strukt [("X", GoVal.slice [GoVal.strukt [("N", GoVal.str b)]])])
        [(["X"], [((2 : Int), 0)])] =
        (GoVal.strukt [("X", GoVal.slice
            [GoVal.strukt [("N", GoVal.str b)],
             GoVal.strukt [("N", (scalarAssign d0 6 "x.5.n" [a] GoTy.str (.str "")).1)]])],
          [(["X"], [((2 : Int), 0), ((5 : Int), 1)])],
          (scalarAssign d0 6 "x.5.n" [a] GoTy.str (.str "")).2) := by rfl
    rw [estep, esa]
  show ((d0.decodeMapsLoop 6 tyT3 [("x.5.n", [a]), ("x.2.n", [b])] [] psT3
      ["x.2.n", "x.5.n"] (zeroVal 6 tyT3) [] []).1,
    (d0.decodeMapsLoop 6 tyT3 [("x.5.n", [a]), ("x.2.n", [b])] [] psT3
      ["x.2.n", "x.5.n"] (zeroVal 6 tyT3) [] []).2.2) = _
  rw [decodeMapsLoop_cons_ok d0 6 tyT3 _ _ psT3 "x.2.n" ["x.5.n"] _ _ _ partsT3_2 [b]
      _ (by rfl) (by rfl) eb rfl]
  rw [decodeMapsLoop_cons_ok d0 6 tyT3 _ _ psT3 "x.5.n" [] _ _ _ partsT3_5 [a]
      _ (by rfl) (by rfl) ea rfl]
  rfl

/-- C3, witness: the spec's own values `a`/`b`. -/
theorem c3_sequence_order_witness :
    d0.decodeMaps 6 tyT3 (zeroVal 6 tyT3) [("x.5.n", ["a"]), ("x.2.n", ["b"])] []
        psT3 [] [] =
      (.strukt [("X", .slice [.strukt [("N", .str "b")], .strukt [("N", .str "a")]])],
        []) :=
  c3_sequence_order_amended "a" "b" (by decide) (by decide)

/-! ### C1: the promotion loop in general -/

theorem foldl_preserves {myA myB : Type} (P : myB → Prop) (g : myB → myA → myB) :
    ∀ (l : List myA) (b : myB), P b → (∀ bb x, P bb → P (g bb x)) → P (l.foldl g b) := by
  intro l
  induction l with
  | nil => intro b h0 _; exact h0
  | cons x xs ih => intro b h0 hs; exact ih (g b x) (hs b x h0) hs

theorem get_mem_sides {myA : Type} (l : List myA) (i j : Nat) (hj : j < l.length)
    (hij : j ≠ i) : l.get ⟨j, hj⟩ ∈ l.take i ++ l.drop (i+1) := by
  rcases Nat.lt_or_ge j i with h | h
  · apply List.mem_append_left
    have hb : j < (l.take i).length := by
      simp [List.length_take]
      omega
    have heq : (l.take i).get ⟨j, hb⟩ = l.get ⟨j, hj⟩ := by
      simp only [List.get_eq_getElem]
      exact List.getElem_take ..
    rw [← heq]
    exact List.get_mem ..
  · have hgt : i + 1 ≤ j := by omega
    apply List.mem_append_right
    have hb : j - (i+1) < (l.drop (i+1)).length := by
      simp [List.length_drop]
      omega
    have heq2 : (l.drop (i+1)).get ⟨j - (i+1), hb⟩ = l.get ⟨j, hj⟩ := by
      simp only [List.get_eq_getElem]
      have heq : (l.drop (i+1))[j - (i+1)] = l[(i+1) + (j - (i+1))] := List.getElem_drop ..
      rw [heq]
      congr 1
      omega
    rw [← heq2]
    exact List.get_mem ..

theorem promote_fields_append (info : StructInfo) (anons : List StructInfo) :
    ∃ l, (promote info anons).fields = info.fields ++ l := by
  unfold promote
  refine foldl_preserves (fun (b : StructInfo) => ∃ l, b.fields = info.fields ++ l)
    (promoteStep anons) (List.range anons.length) info ⟨[], by simp⟩ ?_
  intro bb i hbb
  obtain ⟨l, hl⟩ := hbb
  unfold promoteStep
  cases anons.get? i with
  | none => exact ⟨l, hl⟩
  | some ai =>
    dsimp only
    refine foldl_preserves (fun (b : StructInfo) => ∃ l, b.fields = info.fields ++ l)
      _ _ _ ⟨l, hl⟩ ?_
    intro cc f hcc
    obtain ⟨l2, hl2⟩ := hcc
    by_cases hc : containsAlias (cc :: (anons.take i ++ anons.drop (i+1))) f.«alias» = true
    · simp only [hc, if_true]
      exact ⟨l2, hl2⟩
    · simp only [Bool.not_eq_true] at hc
      simp only [hc, Bool.false_eq_true, if_false]
      exact ⟨l2 ++ [f], by simp [hl2]⟩

theorem promote_get_some (info : StructInfo) (anons : List StructInfo) (a : String)
    (f : FieldInfo) (h : info.get a = some f) : (promote info anons).get a = some f := by
  obtain ⟨l, hl⟩ := promote_fields_append info anons
  unfold StructInfo.get at h ⊢
  rw [hl]
  simp [List.find?_append, h]

theorem promoteStep_get_none (anons : List StructInfo) (a : String)
    (H : ∀ i : Nat, ∃ j, j ≠ i ∧ ∃ hj : j < anons.length,
      ((anons.get ⟨j, hj⟩).get a).isSome = true) :
    ∀ (info : StructInfo) (i : Nat), info.get a = none →
      (promoteStep anons info i).get a = none := by
  intro info i h0
  unfold promoteStep
  cases anons.get? i with
  | none => exact h0
  | some ai =>
    dsimp only
    refine foldl_preserves (fun (b : StructInfo) => b.get a = none) _ _ _ h0 ?_
    intro bb f hbb
    by_cases hc : containsAlias (bb :: (anons.take i ++ anons.drop (i+1))) f.«alias» = true
    · simp only [hc, if_true]
      exact hbb
    · have hfa : goEqualFold f.«alias» a = false := by
        by_contra hne
        simp only [Bool.not_eq_false] at hne
        obtain ⟨j, hji, hj, hsome⟩ := H i
        unfold StructInfo.get at hsome
        rw [List.find?_isSome] at hsome
        obtain ⟨g, hgmem, hg⟩ := hsome
        have hgf : goEqualFold g.«alias» f.«alias» = true := by
          unfold goEqualFold at hg hne ⊢
          simp only [beq_iff_eq] at hg hne ⊢
          rw [hg, hne]
        have hjf : ((anons.get ⟨j, hj⟩).get f.«alias»).isSome = true := by
          unfold StructInfo.get
          rw [List.find?_isSome]
          exact ⟨g, hgmem, hgf⟩
        have hmem : anons.get ⟨j, hj⟩ ∈ bb :: (anons.take i ++ anons.drop (i+1)) :=
          List.mem_cons_of_mem _ (get_mem_sides anons i j hj hji)
        have hca : containsAlias (bb :: (anons.take i ++ anons.drop (i+1))) f.«alias» = true := by
          unfold containsAlias
          rw [List.any_eq_true]
          exact ⟨_, hmem, hjf⟩
        exact hc hca
      simp only [Bool.not_eq_true] at hc
      simp only [hc, Bool.false_eq_true, if_false]
      unfold StructInfo.get at hbb ⊢
      simp [List.find?_append, hbb, hfa]

theorem promote_get_none (info : StructInfo) (anons : List StructInfo) (a : String)
    (i j : Nat) (hi : i < anons.length) (hj : j < anons.length) (hij : i ≠ j)
    (h1 : ((anons.get ⟨i, hi⟩).get a).isSome = true)
    (h2 : ((anons.get ⟨j, hj⟩).get a).isSome = true)
    (h0 : info.get a = none) : (promote info anons).get a = none := by
  have H : ∀ k : Nat, ∃ m, m ≠ k ∧ ∃ hm : m < anons.length,
      ((anons.get ⟨m, hm⟩).get a).isSome = true := by
    intro k
    by_cases hk : k = i
    · refine ⟨j, ?_, hj, h2⟩
      omega
    · exact ⟨i, fun h => hk h.symm, hi, h1⟩
  unfold promote
  exact foldl_preserves (fun (b : StructInfo) => b.get a = none) (promoteStep anons)
    (List.range anons.length) info h0
    (fun bb x hbb => promoteStep_get_none anons a H bb x hbb)

/-- C1, amended: in `cache.create`'s promotion of embedded-struct fields,
(1) an alias already resolving among the parent's own (outer, earlier)
fields keeps resolving to that same outer field after promotion — the outer
field wins and colliding promoted duplicates are dropped; but (2) when the
collision originates from two *different* embedded types at the same nesting
depth, each one's promoted field is blocked by the other: both are dropped,
and the colliding alias resolves to no field at all (rather than to the
textually first embedded type's field, as the original claim stated). -/
theorem c1_embedded_collision_amended :
    (∀ (info : StructInfo) (anons : List StructInfo) (a : String) (f : FieldInfo),
        info.get a = some f → (promote info anons).get a = some f) ∧
    (∀ (info : StructInfo) (anons : List StructInfo) (a : String) (i j : Nat)
        (hi : i < anons.length) (hj : j < anons.length), i ≠ j →
        ((anons.get ⟨i, hi⟩).get a).isSome = true →
        ((anons.get ⟨j, hj⟩).get a).isSome = true →
        info.get a = none → (promote info anons).get a = none) :=
  ⟨fun info anons a f h => promote_get_some info anons a f h,
   fun info anons a i j hi hj hij h1 h2 h0 =>
     promote_get_none info anons a i j hi hj hij h1 h2 h0⟩

/-- C1, witness: two embedded metadata blocks both carrying alias `X`, an
empty direct field list — the promoted alias resolves to nothing. -/
theorem c1_embedded_collision_witness :
    (promote { fields := [] } [{ fields := [fiX] }, { fields := [fiX] }]).get "X" =
      none :=
  c1_embedded_collision_amended.2 { fields := [] }
    [{ fields := [fiX] }, { fields := [fiX] }] "X" 0 1
    (by decide) (by decide) (by decide) (by rfl) (by rfl) (by rfl)

/-! ### C8: every error the merger records -/

theorem merge_errors_characterize (d : Decoder) (fuel : Nat) (t : GoTy) (loc : Nat) :
    ∀ (mm : List (String × List String)) (st0 res : MergeSt),
      d.merge fuel t loc mm st0 = some res →
      ∀ k e, (k, e) ∈ res.errors →
        (k, e) ∈ st0.errors ∨
        (e = .unknownKey k ∧ d.ignoreUnknownKeys = false ∧
          d.cache.parsePath fuel k t loc = .error .invalidPath) ∨
        (d.cache.parsePath fuel k t loc = .error e ∧ e ≠ .invalidPath) := by
  intro mm
  induction mm with
  | nil =>
    intro st0 res h k e hmem
    simp only [Decoder.merge, Option.some.injEq] at h
    rw [← h] at hmem
    exact Or.inl hmem
  | cons kv mm ih =>
    intro st0 res h k e hmem
    obtain ⟨pk, v⟩ := kv
    rw [Decoder.merge] at h
    cases hstrip : stripBracketSuffix d.cache pk with
    | none => rw [hstrip] at h; exact absurd h (by simp)
    | some k2 =>
      rw [hstrip] at h
      dsimp only at h
      by_cases hm : (st0.m.lookup k2).isSome = true
      · rw [if_pos hm] at h
        exact ih _ _ h k e hmem
      · rw [if_neg hm] at h
        by_cases hps : (st0.ps.lookup k2).isSome = true
        · rw [if_pos hps] at h
          exact ih _ _ h k e hmem
        · rw [if_neg hps] at h
          cases hp : d.cache.parsePath fuel k2 t loc with
          | ok parts =>
            rw [hp] at h
            dsimp only at h
            exact ih _ _ h k e hmem
          | error err =>
            rw [hp] at h
            dsimp only at h
            by_cases hinv : err = DErr.invalidPath
            · rw [if_pos hinv] at h
              by_cases hig : d.ignoreUnknownKeys = true
              · simp only [hig, Bool.not_true, Bool.false_eq_true, if_false] at h
                exact ih _ _ h k e hmem
              · simp only [Bool.not_eq_true] at hig
                simp only [hig, Bool.not_false, if_true] at h
                by_cases hco : d.collectErrors = true
                · simp only [hco, Bool.not_true, Bool.false_eq_true, if_false] at h
                  have := ih _ _ h k e hmem
                  rcases this with hold | hrest
                  · rcases List.mem_append.mp hold with h1 | h1
                    · exact Or.inl h1
                    · simp only [List.mem_singleton, Prod.mk.injEq] at h1
                      obtain ⟨hk, he⟩ := h1
                      subst hk
                      rw [hinv] at hp
                      exact Or.inr (Or.inl ⟨he, hig, hp⟩)
                  · exact Or.inr hrest
                · simp only [Bool.not_eq_true] at hco
                  simp only [hco, Bool.not_false, if_true, Option.some.injEq] at h
                  rw [← h] at hmem
                  rcases List.mem_append.mp hmem with h1 | h1
                  · exact Or.inl h1
                  · simp only [List.mem_singleton, Prod.mk.injEq] at h1
                    obtain ⟨hk, he⟩ := h1
                    subst hk
                    rw [hinv] at hp
                    exact Or.inr (Or.inl ⟨he, hig, hp⟩)
            · rw [if_neg hinv] at h
              by_cases hco : d.collectErrors = true
              · simp only [hco, Bool.not_true, Bool.false_eq_true, if_false] at h
                have := ih _ _ h k e hmem
                rcases this with hold | hrest
                · rcases List.mem_append.mp hold with h1 | h1
                  · exact Or.inl h1
                  · simp only [List.mem_singleton, Prod.mk.injEq] at h1
                    obtain ⟨hk, he⟩ := h1
                    subst hk
                    subst he
                    exact Or.inr (Or.inr ⟨hp, hinv⟩)
                · exact Or.inr hrest
              · simp only [Bool.not_eq_true] at hco
                simp only [hco, Bool.not_false, if_true, Option.some.injEq] at h
                rw [← h] at hmem
                rcases List.mem_append.mp hmem with h1 | h1
                · exact Or.inl h1
                · simp only [List.mem_singleton, Prod.mk.injEq] at h1
                  obtain ⟨hk, he⟩ := h1
                  subst hk
                  subst he
                  exact Or.inr (Or.inr ⟨hp, hinv⟩)

theorem checkFiles_errors_characterize (d : Decoder) (fuel : Nat) (t : GoTy) :
    ∀ (m : List (String × List FH)) (ps0 : List (String × List PathPart))
      (errors0 : List (String × DErr)),
      ∀ k e, (k, e) ∈ (d.checkFiles fuel t m ps0 errors0).2 →
        (k, e) ∈ errors0 ∨
        (e = .unknownKey k ∧ d.ignoreUnknownKeys = false ∧
          d.cache.parsePath fuel k t LocationFile = .error .invalidPath) ∨
        (d.cache.parsePath fuel k t LocationFile = .error e ∧ e ≠ .invalidPath) := by
  intro m
  induction m with
  | nil =>
    intro ps0 errors0 k e hmem
    simp only [Decoder.checkFiles] at hmem
    exact Or.inl hmem
  | cons kv m ih =>
    intro ps0 errors0 k e hmem
    obtain ⟨k2, fs⟩ := kv
    rw [Decoder.checkFiles] at hmem
    cases hp : d.cache.parsePath fuel k2 t LocationFile with
    | ok parts =>
      rw [hp] at hmem
      dsimp only at hmem
      exact ih _ _ k e hmem
    | error err =>
      rw [hp] at hmem
      dsimp only at hmem
      by_cases hinv : err = DErr.invalidPath
      · rw [if_pos hinv] at hmem
        by_cases hig : d.ignoreUnknownKeys = true
        · simp only [hig, Bool.not_true, Bool.false_eq_true, if_false] at hmem
          exact ih _ _ k e hmem
        · simp only [Bool.not_eq_true] at hig
          simp only [hig, Bool.not_false, if_true] at hmem
          by_cases hco : d.collectErrors = true
          · simp only [hco, Bool.not_true, Bool.false_eq_true, if_false] at hmem
            have := ih _ _ k e hmem
            rcases this with hold | hrest
            · rcases List.mem_append.mp hold with h1 | h1
              · exact Or.inl h1
              · simp only [List.mem_singleton, Prod.mk.injEq] at h1
                obtain ⟨hk, he⟩ := h1
                subst hk
                rw [hinv] at hp
                exact Or.inr (Or.inl ⟨he, hig, hp⟩)
            · exact Or.inr hrest
          · simp only [Bool.not_eq_true] at hco
            simp only [hco, Bool.not_false, if_true] at hmem
            rcases List.mem_append.mp hmem with h1 | h1
            · exact Or.inl h1
            · simp only [List.mem_singleton, Prod.mk.injEq] at h1
              obtain ⟨hk, he⟩ := h1
              subst hk
              rw [hinv] at hp
              exact Or.inr (Or.inl ⟨he, hig, hp⟩)
      · rw [if_neg hinv] at hmem
        by_cases hco : d.collectErrors = true
        · simp only [hco, Bool.not_true, Bool.false_eq_true, if_false] at hmem
          have := ih _ _ k e hmem
          rcases this with hold | hrest
          · rcases List.mem_append.mp hold with h1 | h1
            · exact Or.inl h1
            · simp only [List.mem_singleton, Prod.mk.injEq] at h1
              obtain ⟨hk, he⟩ := h1
              subst hk
              subst he
              exact Or.inr (Or.inr ⟨hp, hinv⟩)
          · exact Or.inr hrest
        · simp only [Bool.not_eq_true] at hco
          simp only [hco, Bool.not_false, if_true] at hmem
          rcases List.mem_append.mp hmem with h1 | h1
          · exact Or.inl h1
          · simp only [List.mem_singleton, Prod.mk.injEq] at h1
            obtain ⟨hk, he⟩ := h1
            subst hk
            subst he
            exact Or.inr (Or.inr ⟨hp, hinv⟩)

/-- C8 (confirmed).  The internal `invalidPath` sentinel is never surfaced
raw: every error entry `Decoder.merge` or `Decoder.checkFiles` adds beyond
the pre-existing ones is either `UnknownKeyError` for exactly that key (when
the key's resolution failed with `invalidPath` and unknown keys are not
ignored — with unknown keys ignored such keys are dropped without any
entry), or a non-path resolution error (such as `LocationError`) recorded as
itself, which is never `invalidPath`. -/
theorem c8_invalid_path_never_raw :
    (∀ (d : Decoder) (fuel : Nat) (t : GoTy) (loc : Nat)
       (mm : List (String × List String)) (st0 res : MergeSt),
       d.merge fuel t loc mm st0 = some res →
       ∀ k e, (k, e) ∈ res.errors →
         (k, e) ∈ st0.errors ∨
         (e = .unknownKey k ∧ d.ignoreUnknownKeys = false ∧
           d.cache.parsePath fuel k t loc = .error .invalidPath) ∨
         (d.cache.parsePath fuel k t loc = .error e ∧ e ≠ .invalidPath)) ∧
    (∀ (d : Decoder) (fuel : Nat) (t : GoTy) (m : List (String × List FH))
       (ps0 : List (String × List PathPart)) (errors0 : List (String × DErr)),
       ∀ k e, (k, e) ∈ (d.checkFiles fuel t m ps0 errors0).2 →
         (k, e) ∈ errors0 ∨
         (e = .unknownKey k ∧ d.ignoreUnknownKeys = false ∧
           d.cache.parsePath fuel k t LocationFile = .error .invalidPath) ∨
         (d.cache.parsePath fuel k t LocationFile = .error e ∧ e ≠ .invalidPath)) :=
  ⟨merge_errors_characterize, checkFiles_errors_characterize⟩

/-- C8, witness: merging the unresolvable key `zz` with unknown keys
rejected records exactly `UnknownKeyError{zz}` — never the raw sentinel. -/
theorem c8_invalid_path_never_raw_witness :
    ("zz", DErr.unknownKey "zz") ∈ (⟨[], [], []⟩ : MergeSt).errors ∨
    (DErr.unknownKey "zz" = .unknownKey "zz" ∧ dStrict.ignoreUnknownKeys = false ∧
      dStrict.cache.parsePath 6 "zz" tyT5 LocationQuery = .error .invalidPath) ∨
    (dStrict.cache.parsePath 6 "zz" tyT5 LocationQuery = .error (.unknownKey "zz") ∧
      DErr.unknownKey "zz" ≠ .invalidPath) :=
  c8_invalid_path_never_raw.1 dStrict 6 tyT5 LocationQuery [("zz", ["1"])]
    ⟨[], [], []⟩ c8merged (by rfl) "zz" (.unknownKey "zz") (by decide)

end Reqtruct


